import Mathlib

/-!
Shallow embedding of the Bancor formula reference implementation
(`solidity/python/FormulaSolidityPort/__init__.py`, version 0.2).

All machine integers in the source are unbounded Python integers; the
checked-arithmetic helpers (`safeAdd`, `safeMul`) guard the 256-bit domain
explicitly, so the embedding uses `Nat` (and `Int` where the source can
produce negative intermediate values) with explicit bounds checks returning
`Option`.  Loops of the source (`while`, `for`) become structural
recursions; the two bounded `while` loops carry an explicit iteration bound
that matches the bound stated in the source comments (at most 8 iterations
for `floorLog2` below 256, at most 95 halvings of the 95-wide search
interval for the binary search).
-/

namespace Bancor

def MAX_CRR : ℕ := 1000000

def ONE : ℕ := 1

def MIN_PRECISION : ℕ := 32

def MAX_PRECISION : ℕ := 127

def FIXED_1 : ℕ := 0x080000000000000000000000000000000

def FIXED_2 : ℕ := 0x100000000000000000000000000000000

def MAX_NUM : ℕ := 0x1ffffffffffffffffffffffffffffffff

def LN2_MANTISSA : ℕ := 0x2c5c85fdf473de6af278ece600fcbda

def LN2_EXPONENT : ℕ := 122

/-- The 96 populated entries of `maxExpArray`, indices 32..127 (the source
initializes indices 0..31 to zero and leaves them commented out). -/
def maxExpList : List ℕ := [
  0x1c35fedd14ffffffffffffffffffffffff,
  0x1b0ce43b323fffffffffffffffffffffff,
  0x19f0028ec1ffffffffffffffffffffffff,
  0x18ded91f0e7fffffffffffffffffffffff,
  0x17d8ec7f0417ffffffffffffffffffffff,
  0x16ddc6556cdbffffffffffffffffffffff,
  0x15ecf52776a1ffffffffffffffffffffff,
  0x15060c256cb2ffffffffffffffffffffff,
  0x1428a2f98d72ffffffffffffffffffffff,
  0x13545598e5c23fffffffffffffffffffff,
  0x1288c4161ce1dfffffffffffffffffffff,
  0x11c592761c666fffffffffffffffffffff,
  0x110a688680a757ffffffffffffffffffff,
  0x1056f1b5bedf77ffffffffffffffffffff,
  0xfaadceceeff8bffffffffffffffffffff,
  0xf05dc6b27edadffffffffffffffffffff,
  0xe67a5a25da4107fffffffffffffffffff,
  0xdcff115b14eedffffffffffffffffffff,
  0xd3e7a392431239fffffffffffffffffff,
  0xcb2ff529eb71e4fffffffffffffffffff,
  0xc2d415c3db974afffffffffffffffffff,
  0xbad03e7d883f69bffffffffffffffffff,
  0xb320d03b2c343d5ffffffffffffffffff,
  0xabc25204e02828dffffffffffffffffff,
  0xa4b16f74ee4bb207fffffffffffffffff,
  0x9deaf736ac1f569ffffffffffffffffff,
  0x976bd9952c7aa957fffffffffffffffff,
  0x9131271922eaa606fffffffffffffffff,
  0x8b380f3558668c46fffffffffffffffff,
  0x857ddf0117efa215bffffffffffffffff,
  0x7ffffffffffffffffffffffffffffffff,
  0x7abbf6f6abb9d087fffffffffffffffff,
  0x75af62cbac95f7dfa7fffffffffffffff,
  0x70d7fb7452e187ac13fffffffffffffff,
  0x6c3390ecc8af379295fffffffffffffff,
  0x67c00a3b07ffc01fd6fffffffffffffff,
  0x637b647c39cbb9d3d27ffffffffffffff,
  0x5f63b1fc104dbd39587ffffffffffffff,
  0x5b771955b36e12f7235ffffffffffffff,
  0x57b3d49dda84556d6f6ffffffffffffff,
  0x54183095b2c8ececf30ffffffffffffff,
  0x50a28be635ca2b888f77fffffffffffff,
  0x4d5156639708c9db33c3fffffffffffff,
  0x4a23105873875bd52dfdfffffffffffff,
  0x471649d87199aa990756fffffffffffff,
  0x4429a21a029d4c1457cfbffffffffffff,
  0x415bc6d6fb7dd71af2cb3ffffffffffff,
  0x3eab73b3bbfe282243ce1ffffffffffff,
  0x3c1771ac9fb6b4c18e229ffffffffffff,
  0x399e96897690418f785257fffffffffff,
  0x373fc456c53bb779bf0ea9fffffffffff,
  0x34f9e8e490c48e67e6ab8bfffffffffff,
  0x32cbfd4a7adc790560b3337ffffffffff,
  0x30b50570f6e5d2acca94613ffffffffff,
  0x2eb40f9f620fda6b56c2861ffffffffff,
  0x2cc8340ecb0d0f520a6af58ffffffffff,
  0x2af09481380a0a35cf1ba02ffffffffff,
  0x292c5bdd3b92ec810287b1b3fffffffff,
  0x277abdcdab07d5a77ac6d6b9fffffffff,
  0x25daf6654b1eaa55fd64df5efffffffff,
  0x244c49c648baa98192dce88b7ffffffff,
  0x22ce03cd5619a311b2471268bffffffff,
  0x215f77c045fbe885654a44a0fffffffff,
  0x1ffffffffffffffffffffffffffffffff,
  0x1eaefdbdaaee7421fc4d3ede5ffffffff,
  0x1d6bd8b2eb257df7e8ca57b09bfffffff,
  0x1c35fedd14b861eb0443f7f133fffffff,
  0x1b0ce43b322bcde4a56e8ada5afffffff,
  0x19f0028ec1fff007f5a195a39dfffffff,
  0x18ded91f0e72ee74f49b15ba527ffffff,
  0x17d8ec7f04136f4e5615fd41a63ffffff,
  0x16ddc6556cdb84bdc8d12d22e6fffffff,
  0x15ecf52776a1155b5bd8395814f7fffff,
  0x15060c256cb23b3b3cc3754cf40ffffff,
  0x1428a2f98d728ae223ddab715be3fffff,
  0x13545598e5c23276ccf0ede68034fffff,
  0x1288c4161ce1d6f54b7f61081194fffff,
  0x11c592761c666aa641d5a01a40f17ffff,
  0x110a688680a7530515f3e6e6cfdcdffff,
  0x1056f1b5bedf75c6bcb2ce8aed428ffff,
  0xfaadceceeff8a0890f3875f008277fff,
  0xf05dc6b27edad306388a600f6ba0bfff,
  0xe67a5a25da41063de1495d5b18cdbfff,
  0xdcff115b14eedde6fc3aa5353f2e4fff,
  0xd3e7a3924312399f9aae2e0f868f8fff,
  0xcb2ff529eb71e41582cccd5a1ee26fff,
  0xc2d415c3db974ab32a51840c0b67edff,
  0xbad03e7d883f69ad5b0a186184e06bff,
  0xb320d03b2c343d4829abd6075f0cc5ff,
  0xabc25204e02828d73c6e80bcdb1a95bf,
  0xa4b16f74ee4bb2040a1ec6c15fbbf2df,
  0x9deaf736ac1f569deb1b5ae3f36c130f,
  0x976bd9952c7aa957f5937d790ef65037,
  0x9131271922eaa6064b73a22d0bd4f2bf,
  0x8b380f3558668c46c91c49a2f8e967b9,
  0x857ddf0117efa215952912839f6473e6
]

/-- `maxExpArray[i]` of the source: zero below index 32, table value at
32..127 (the source never reads outside 32..127). -/
def maxExpArray (i : ℕ) : ℕ :=
  if 32 ≤ i then maxExpList.getD (i - 32) 0 else 0

def safeMul (x y : ℕ) : Option ℕ :=
  if x * y < 2 ^ 256 then some (x * y) else none

def safeAdd (x y : ℕ) : Option ℕ :=
  if x + y < 2 ^ 256 then some (x + y) else none

/-- The `while (_n > 1)` loop of `floorLog2` for inputs below 256; the
source comment bounds it by 8 iterations. -/
def floorLog2Small : ℕ → ℕ → ℕ → ℕ
  | 0, _, res => res
  | f + 1, n, res => if 1 < n then floorLog2Small f (n >>> 1) (res + 1) else res

/-- The `for s in [128, 64, ..., 1]` branch of `floorLog2`. -/
def floorLog2Big : List ℕ → ℕ → ℕ → ℕ
  | [], _, res => res
  | s :: ss, n, res =>
    if ONE <<< s ≤ n then floorLog2Big ss (n >>> s) (res ||| s) else floorLog2Big ss n res

def floorLog2 (n : ℕ) : ℕ :=
  if n < 256 then floorLog2Small 8 n 0
  else floorLog2Big [128, 64, 32, 16, 8, 4, 2, 1] n 0

/-- One iteration of the fractional-bit loop of `ln`, at loop index `i`
(the source adds `ONE << (i - 1)` when the squared value reaches 2). -/
def lnIter (i : ℕ) (p : ℕ × ℕ) : ℕ × ℕ :=
  if FIXED_2 ≤ p.1 * p.1 / FIXED_1 then
    ((p.1 * p.1 / FIXED_1) >>> 1, p.2 + (ONE <<< (i - 1)))
  else (p.1 * p.1 / FIXED_1, p.2)

/-- The fractional-bit loop of `ln`: `for i in range(MAX_PRECISION, 0, -1)`. -/
def lnLoop : ℕ → ℕ × ℕ → ℕ × ℕ
  | 0, p => p
  | i + 1, p => lnLoop i (lnIter (i + 1) p)

/-- The body of `ln` on the fixed-point ratio `x0 = numerator * FIXED_1 /
denominator`: integer-part extraction via `floorLog2`, then the
fractional-bit loop, then the base-2 to natural-log rescaling. -/
def lnBody (x0 : ℕ) : ℕ :=
  let s1 :=
    if FIXED_2 ≤ x0 then
      ((x0 >>> floorLog2 (x0 / FIXED_1)), floorLog2 (x0 / FIXED_1) * FIXED_1)
    else (x0, 0)
  let s2 := if FIXED_1 < s1.1 then lnLoop MAX_PRECISION s1 else s1
  (s2.2 * LN2_MANTISSA) >>> LN2_EXPONENT

def ln (numerator denominator : ℕ) : Option ℕ :=
  if numerator ≤ MAX_NUM then some (lnBody (numerator * FIXED_1 / denominator))
  else none

/-- The `while (lo + 1 < hi)` binary-search loop of
`findPositionInMaxExpArray`; the interval `[lo, hi]` starts 95 wide and
shrinks every iteration, so 95 steps always suffice. -/
def findPosLoop : ℕ → ℕ → ℕ → ℕ → ℕ × ℕ
  | 0, lo, hi, _ => (lo, hi)
  | f + 1, lo, hi, x =>
    if lo + 1 < hi then
      if x ≤ maxExpArray ((lo + hi) / 2) then findPosLoop f ((lo + hi) / 2) hi x
      else findPosLoop f lo ((lo + hi) / 2) x
    else (lo, hi)

def findPositionInMaxExpArray (x : ℕ) : Option ℕ :=
  let lh := findPosLoop 95 MIN_PRECISION MAX_PRECISION x
  if x ≤ maxExpArray lh.2 then some lh.2
  else if x ≤ maxExpArray lh.1 then some lh.1
  else none

/-- The 32 Maclaurin coefficients of `fixedExp`, in source order. -/
def fixedExpCoeffs : List ℕ := [
  0x3442c4e6074a82f1797f72ac0000000,
  0x116b96f757c380fb287fd0e40000000,
  0x45ae5bdd5f0e03eca1ff4390000000,
  0xdefabf91302cd95b9ffda50000000,
  0x2529ca9832b22439efff9b8000000,
  0x54f1cf12bd04e516b6da88000000,
  0xa9e39e257a09ca2d6db51000000,
  0x12e066e7b839fa050c309000000,
  0x1e33d7d926c329a1ad1a800000,
  0x2bee513bdb4a6b19b5f800000,
  0x3a9316fa79b88eccf2a00000,
  0x48177ebe1fa812375200000,
  0x5263fe90242dcbacf00000,
  0x57e22099c030d94100000,
  0x57e22099c030d9410000,
  0x52b6b54569976310000,
  0x4985f67696bf748000,
  0x3dea12ea99e498000,
  0x31880f2214b6e000,
  0x25bcff56eb36000,
  0x1b722e10ab1000,
  0x1317c70077000,
  0xcba84aafa00,
  0x82573a0a00,
  0x5035ad900,
  0x2f881b00,
  0x1b29340,
  0xefc40,
  0x7fe0,
  0x420,
  0x21,
  0x1
]

def fixedExpNorm : ℕ := 0x688589cc0e9505e2f2fee5580000000

/-- The coefficient accumulation of `fixedExp`: state is `(xi, res)`. -/
def fixedExpLoop : List ℕ → ℕ → ℕ → ℕ × ℕ → ℕ × ℕ
  | [], _, _, st => st
  | c :: cs, x, pr, st =>
    fixedExpLoop cs x pr ((st.1 * x) >>> pr, st.2 + ((st.1 * x) >>> pr) * c)

def fixedExp (x precision : ℕ) : ℕ :=
  (fixedExpLoop fixedExpCoeffs x precision (x, 0)).2 / fixedExpNorm + x + (ONE <<< precision)

def power (baseN baseD expN expD : ℕ) : Option (ℕ × ℕ) := do
  let l ← ln baseN baseD
  let lnBaseTimesExp := l * expN / expD
  let precision ← findPositionInMaxExpArray lnBaseTimesExp
  pure (fixedExp (lnBaseTimesExp >>> (MAX_PRECISION - precision)) precision, precision)

def calculatePurchaseReturn (supply reserveBalance reserveRatio depositAmount : ℕ) :
    Option ℤ :=
  if 0 < supply ∧ 0 < reserveBalance ∧ 0 < reserveRatio ∧ reserveRatio ≤ MAX_CRR then
    if depositAmount = 0 then some 0
    else if reserveRatio = MAX_CRR then
      (safeMul supply depositAmount).map (fun m => ((m / reserveBalance : ℕ) : ℤ))
    else do
      let baseN ← safeAdd depositAmount reserveBalance
      let rp ← power baseN reserveBalance reserveRatio MAX_CRR
      let temp ← safeMul supply rp.1
      pure (((temp >>> rp.2 : ℕ) : ℤ) - (supply : ℤ))
  else none

def calculateSaleReturn (supply reserveBalance reserveRatio sellAmount : ℕ) :
    Option ℤ :=
  if 0 < supply ∧ 0 < reserveBalance ∧ 0 < reserveRatio ∧ reserveRatio ≤ MAX_CRR ∧
      sellAmount ≤ supply then
    if sellAmount = 0 then some 0
    else if sellAmount = supply then some (reserveBalance : ℤ)
    else if reserveRatio = MAX_CRR then
      (safeMul reserveBalance sellAmount).map (fun m => ((m / supply : ℕ) : ℤ))
    else do
      let rp ← power supply (supply - sellAmount) MAX_CRR reserveRatio
      let temp1 ← safeMul reserveBalance rp.1
      pure (Int.fdiv ((temp1 : ℤ) - ((reserveBalance <<< rp.2 : ℕ) : ℤ)) ((rp.1 : ℕ) : ℤ))
  else none

lemma one_shiftLeft (p : ℕ) : ONE <<< p = 2 ^ p := by
  simp [ONE, Nat.shiftLeft_eq]

lemma fixedExp_lower (x p : ℕ) : x + 2 ^ p ≤ fixedExp x p := by
  unfold fixedExp
  rw [one_shiftLeft]
  exact Nat.add_le_add_right (Nat.le_add_left x _) _

lemma safeMul_some {x y m : ℕ} (h : safeMul x y = some m) :
    m = x * y ∧ x * y < 2 ^ 256 := by
  unfold safeMul at h
  split at h
  · exact ⟨(Option.some_inj.mp h).symm, by assumption⟩
  · exact absurd h (by simp)

lemma safeAdd_some {x y m : ℕ} (h : safeAdd x y = some m) :
    m = x + y ∧ x + y < 2 ^ 256 := by
  unfold safeAdd at h
  split at h
  · exact ⟨(Option.some_inj.mp h).symm, by assumption⟩
  · exact absurd h (by simp)

lemma power_inv {bn bd en ed : ℕ} {res p : ℕ}
    (h : power bn bd en ed = some (res, p)) :
    ∃ l, ln bn bd = some l ∧
      findPositionInMaxExpArray (l * en / ed) = some p ∧
      res = fixedExp ((l * en / ed) >>> (MAX_PRECISION - p)) p := by
  unfold power at h
  cases hl : ln bn bd with
  | none => rw [hl] at h; exact absurd h (by simp)
  | some l =>
    rw [hl] at h
    simp only [Option.bind_eq_bind, Option.some_bind] at h
    cases hp : findPositionInMaxExpArray (l * en / ed) with
    | none => rw [hp] at h; exact absurd h (by simp)
    | some q =>
      rw [hp] at h
      simp only [Option.some_bind, pure, Option.some_inj] at h
      obtain ⟨h1, h2⟩ := Prod.mk.inj h
      exact ⟨l, rfl, h2 ▸ hp, (h2 ▸ h1).symm⟩

lemma power_some_lower {bn bd en ed : ℕ} {res p : ℕ}
    (h : power bn bd en ed = some (res, p)) : 2 ^ p ≤ res := by
  obtain ⟨l, _, _, hres⟩ := power_inv h
  calc 2 ^ p ≤ _ + 2 ^ p := Nat.le_add_left _ _
  _ ≤ fixedExp ((l * en / ed) >>> (MAX_PRECISION - p)) p := fixedExp_lower _ _
  _ = res := hres.symm

/-- C4: selling the entire supply drains the whole reserve. -/
theorem C4_sellAll (s r c : ℕ) (hs : 0 < s) (hr : 0 < r) (hc : 0 < c)
    (hcm : c ≤ MAX_CRR) : calculateSaleReturn s r c s = some (r : ℤ) := by
  unfold calculateSaleReturn
  rw [if_pos ⟨hs, hr, hc, hcm, le_refl s⟩, if_neg hs.ne', if_pos rfl]

/-- Witness for C4 at concrete valid inputs. -/
theorem C4_sellAll_witness : calculateSaleReturn 7 5 300000 7 = some (5 : ℤ) :=
  C4_sellAll 7 5 300000 (by decide) (by decide) (by decide) (by decide)

/-- C6: a zero amount yields a zero return from both formulas, with no
error, for every valid pool state. -/
theorem C6_zeroAmount (s r c : ℕ) (hs : 0 < s) (hr : 0 < r) (hc : 0 < c)
    (hcm : c ≤ MAX_CRR) :
    calculatePurchaseReturn s r c 0 = some 0 ∧ calculateSaleReturn s r c 0 = some 0 := by
  constructor
  · unfold calculatePurchaseReturn
    rw [if_pos ⟨hs, hr, hc, hcm⟩, if_pos rfl]
  · unfold calculateSaleReturn
    rw [if_pos ⟨hs, hr, hc, hcm, Nat.zero_le s⟩, if_pos rfl]

/-- Witness for C6 at concrete valid inputs. -/
theorem C6_zeroAmount_witness :
    calculatePurchaseReturn 3 4 999999 0 = some 0 ∧ calculateSaleReturn 3 4 999999 0 = some 0 :=
  C6_zeroAmount 3 4 999999 (by decide) (by decide) (by decide) (by decide)

/-- C9: the populated precision table is strictly decreasing on indices
32..127. -/
theorem C9_table_strictDecreasing (i : ℕ) (hi : i < 127) (hlo : 32 ≤ i) :
    maxExpArray (i + 1) < maxExpArray i := by
  revert hlo
  revert i
  decide

/-- Witness for C9 at a concrete index. -/
theorem C9_table_strictDecreasing_witness : maxExpArray 63 < maxExpArray 62 :=
  C9_table_strictDecreasing 62 (by decide) (by decide)

lemma purchase_inv {s r c d : ℕ} {v : ℤ}
    (h : calculatePurchaseReturn s r c d = some v) :
    (0 < s ∧ 0 < r ∧ 0 < c ∧ c ≤ MAX_CRR) ∧ (
    (d = 0 ∧ v = 0) ∨
    (c = MAX_CRR ∧ ∃ m, safeMul s d = some m ∧ v = ((m / r : ℕ) : ℤ)) ∨
    (d ≠ 0 ∧ c ≠ MAX_CRR ∧ ∃ bn res p, safeAdd d r = some bn ∧
      power bn r c MAX_CRR = some (res, p) ∧ s * res < 2 ^ 256 ∧
      v = (((s * res) >>> p : ℕ) : ℤ) - (s : ℤ))) := by
  unfold calculatePurchaseReturn at h
  split at h
  case isFalse => exact absurd h (by simp)
  case isTrue hvalid =>
  refine ⟨hvalid, ?_⟩
  split at h
  case isTrue hd => exact Or.inl ⟨hd, (Option.some_inj.mp h).symm⟩
  case isFalse hd =>
  split at h
  case isTrue hc =>
    refine Or.inr (Or.inl ⟨hc, ?_⟩)
    cases hm : safeMul s d with
    | none => rw [hm] at h; exact absurd h (by simp)
    | some m =>
      rw [hm] at h
      exact ⟨m, rfl, (Option.some_inj.mp (by simpa using h)).symm⟩
  case isFalse hc =>
    refine Or.inr (Or.inr ⟨hd, hc, ?_⟩)
    cases hbn : safeAdd d r with
    | none => rw [hbn] at h; exact absurd h (by simp)
    | some bn =>
      rw [hbn] at h
      simp only [Option.bind_eq_bind, Option.some_bind] at h
      cases hpw : power bn r c MAX_CRR with
      | none => rw [hpw] at h; exact absurd h (by simp)
      | some rp =>
        rw [hpw] at h
        simp only [Option.some_bind] at h
        cases htm : safeMul s rp.1 with
        | none => rw [htm] at h; exact absurd h (by simp)
        | some tm =>
          rw [htm] at h
          simp only [Option.some_bind, pure, Option.some_inj] at h
          obtain ⟨h1, h2⟩ := safeMul_some htm
          refine ⟨bn, rp.1, rp.2, rfl, hpw, h1 ▸ h2, ?_⟩
          rw [← h, h1]

lemma sale_inv {s r c a : ℕ} {v : ℤ}
    (h : calculateSaleReturn s r c a = some v) :
    (0 < s ∧ 0 < r ∧ 0 < c ∧ c ≤ MAX_CRR ∧ a ≤ s) ∧ (
    (a = 0 ∧ v = 0) ∨
    (a ≠ 0 ∧ a = s ∧ v = (r : ℤ)) ∨
    (a ≠ 0 ∧ a ≠ s ∧ c = MAX_CRR ∧ ∃ m, safeMul r a = some m ∧ v = ((m / s : ℕ) : ℤ)) ∨
    (a ≠ 0 ∧ a ≠ s ∧ c ≠ MAX_CRR ∧ ∃ res p,
      power s (s - a) MAX_CRR c = some (res, p) ∧ r * res < 2 ^ 256 ∧
      v = Int.fdiv (((r * res : ℕ) : ℤ) - ((r <<< p : ℕ) : ℤ)) ((res : ℕ) : ℤ))) := by
  unfold calculateSaleReturn at h
  split at h
  case isFalse => exact absurd h (by simp)
  case isTrue hvalid =>
  refine ⟨hvalid, ?_⟩
  split at h
  case isTrue ha => exact Or.inl ⟨ha, (Option.some_inj.mp h).symm⟩
  case isFalse ha =>
  split at h
  case isTrue has => exact Or.inr (Or.inl ⟨ha, has, (Option.some_inj.mp h).symm⟩)
  case isFalse has =>
  split at h
  case isTrue hc =>
    refine Or.inr (Or.inr (Or.inl ⟨ha, has, hc, ?_⟩))
    cases hm : safeMul r a with
    | none => rw [hm] at h; exact absurd h (by simp)
    | some m =>
      rw [hm] at h
      exact ⟨m, rfl, (Option.some_inj.mp (by simpa using h)).symm⟩
  case isFalse hc =>
    refine Or.inr (Or.inr (Or.inr ⟨ha, has, hc, ?_⟩))
    cases hpw : power s (s - a) MAX_CRR c with
    | none => rw [hpw] at h; exact absurd h (by simp)
    | some rp =>
      rw [hpw] at h
      simp only [Option.bind_eq_bind, Option.some_bind] at h
      cases htm : safeMul r rp.1 with
      | none => rw [htm] at h; exact absurd h (by simp)
      | some tm =>
        rw [htm] at h
        simp only [Option.some_bind, pure, Option.some_inj] at h
        obtain ⟨h1, h2⟩ := safeMul_some htm
        refine ⟨rp.1, rp.2, rfl, h1 ▸ h2, ?_⟩
        rw [← h, h1]

lemma shiftedProduct_ge {s res p : ℕ} (hres : 2 ^ p ≤ res) : s ≤ (s * res) >>> p := by
  rw [Nat.shiftRight_eq_div_pow]
  calc s = s * 2 ^ p / 2 ^ p := by
        rw [Nat.mul_div_cancel _ (Nat.pos_pow_of_pos p (by norm_num))]
  _ ≤ s * res / 2 ^ p := Nat.div_le_div_right (Nat.mul_le_mul_left s hres)

lemma purchase_nonneg {s r c d : ℕ} {v : ℤ}
    (h : calculatePurchaseReturn s r c d = some v) : 0 ≤ v := by
  rcases (purchase_inv h).2 with ⟨_, hv⟩ | ⟨_, m, _, hv⟩ |
    ⟨_, _, bn, res, p, _, hp, _, hv⟩
  · omega
  · rw [hv]; exact Int.natCast_nonneg _
  · have hres : 2 ^ p ≤ res := power_some_lower hp
    have := shiftedProduct_ge (s := s) hres
    rw [hv]
    omega

lemma sale_nonneg {s r c a : ℕ} {v : ℤ}
    (h : calculateSaleReturn s r c a = some v) : 0 ≤ v := by
  rcases (sale_inv h).2 with ⟨_, hv⟩ | ⟨_, _, hv⟩ | ⟨_, _, _, m, _, hv⟩ |
    ⟨_, _, _, res, p, hp, _, hv⟩
  · omega
  · rw [hv]; exact Int.natCast_nonneg _
  · rw [hv]; exact Int.natCast_nonneg _
  · have hres : 2 ^ p ≤ res := power_some_lower hp
    rw [hv]
    apply Int.fdiv_nonneg
    · have : r <<< p ≤ r * res := by
        rw [Nat.shiftLeft_eq]
        exact Nat.mul_le_mul_left r hres
      omega
    · exact Int.natCast_nonneg _

/-- C10: `fixedExp` always returns at least `x + 2^precision`; hence in the
general paths `power`'s result is at least `2^precision`, the final
subtraction of `calculatePurchaseReturn` is nonnegative, and the final
subtraction and division of `calculateSaleReturn` are nonnegative and
never divide by zero (so both functions only ever return nonnegative
values). -/
theorem C10_safety :
    (∀ x p, x + 2 ^ p ≤ fixedExp x p) ∧
    (∀ bn bd en ed res p, power bn bd en ed = some (res, p) → 2 ^ p ≤ res ∧ 0 < res) ∧
    (∀ s r c d v, calculatePurchaseReturn s r c d = some v → 0 ≤ v) ∧
    (∀ s r c a v, calculateSaleReturn s r c a = some v → 0 ≤ v) := by
  refine ⟨fixedExp_lower, ?_, ?_, ?_⟩
  · intro bn bd en ed res p h
    have := power_some_lower h
    exact ⟨this, lt_of_lt_of_le (Nat.pos_pow_of_pos p (by norm_num)) this⟩
  · intro s r c d v h
    exact purchase_nonneg h
  · intro s r c a v h
    exact sale_nonneg h

/-- C5 counterexample: the claim asserts that when the product
`reserveBalance * sellAmount` reaches `2^256` the sale call fails with
`ArithmeticOverflow`; but for `sellAmount = supply` the code returns the
reserve before reaching the 100%-ratio branch, with no overflow check. -/
theorem C5_counterexample :
    calculateSaleReturn (2 ^ 128) (2 ^ 128) 1000000 (2 ^ 128) = some ((2 : ℤ) ^ 128) ∧
    ¬ 2 ^ 128 * 2 ^ 128 < 2 ^ 256 := by
  constructor
  · unfold calculateSaleReturn
    norm_num [MAX_CRR]
  · norm_num

/-- C5 (amended): at 100% reserve ratio both returns are the linear floor
quotients, and the calls fail by `ArithmeticOverflow` when the checked
product reaches `2^256` — except the whole-supply sale, which returns the
reserve without any overflow check. -/
theorem C5_fullRatio_linear :
    (∀ s r d, 0 < s → 0 < r → s * d < 2 ^ 256 →
      calculatePurchaseReturn s r MAX_CRR d = some ((s * d / r : ℕ) : ℤ)) ∧
    (∀ s r d, 0 < s → 0 < r → 2 ^ 256 ≤ s * d →
      calculatePurchaseReturn s r MAX_CRR d = none) ∧
    (∀ s r a, 0 < s → 0 < r → a ≤ s → r * a < 2 ^ 256 →
      calculateSaleReturn s r MAX_CRR a = some ((r * a / s : ℕ) : ℤ)) ∧
    (∀ s r a, 0 < s → 0 < r → a < s → 2 ^ 256 ≤ r * a →
      calculateSaleReturn s r MAX_CRR a = none) := by
  have hmax : 0 < MAX_CRR := by norm_num [MAX_CRR]
  refine ⟨?_, ?_, ?_, ?_⟩
  · intro s r d hs hr hlt
    unfold calculatePurchaseReturn
    rw [if_pos ⟨hs, hr, hmax, le_refl _⟩]
    by_cases hd : d = 0
    · subst hd; rw [if_pos rfl]; simp
    · rw [if_neg hd, if_pos rfl]
      unfold safeMul
      rw [if_pos hlt]
      simp
  · intro s r d hs hr hge
    unfold calculatePurchaseReturn
    rw [if_pos ⟨hs, hr, hmax, le_refl _⟩]
    have hd : d ≠ 0 := by rintro rfl; simp at hge
    rw [if_neg hd, if_pos rfl]
    unfold safeMul
    rw [if_neg (by omega)]
    simp
  · intro s r a hs hr ha hlt
    unfold calculateSaleReturn
    rw [if_pos ⟨hs, hr, hmax, le_refl _, ha⟩]
    by_cases ha0 : a = 0
    · subst ha0; rw [if_pos rfl]; simp
    · rw [if_neg ha0]
      by_cases has : a = s
      · subst has
        rw [if_pos rfl, Nat.mul_div_cancel r hs]
      · rw [if_neg has, if_pos rfl]
        unfold safeMul
        rw [if_pos hlt]
        simp
  · intro s r a hs hr ha hge
    unfold calculateSaleReturn
    rw [if_pos ⟨hs, hr, hmax, le_refl _, le_of_lt ha⟩]
    have ha0 : a ≠ 0 := by rintro rfl; simp at hge
    rw [if_neg ha0, if_neg (Nat.ne_of_lt ha), if_pos rfl]
    unfold safeMul
    rw [if_neg (by omega)]
    simp

lemma maxExpArray_succ_lt : ∀ k, k < 127 → 32 ≤ k → maxExpArray (k + 1) < maxExpArray k := by
  decide

lemma maxExpArray_antitone {i j : ℕ} (h32 : 32 ≤ i) (hij : i ≤ j) (h127 : j ≤ 127) :
    maxExpArray j ≤ maxExpArray i := by
  induction j, hij using Nat.le_induction with
  | base => exact le_refl _
  | succ j hij ih =>
    exact le_trans (le_of_lt (maxExpArray_succ_lt j (by omega) (by omega)))
      (ih (by omega))

lemma findPosLoop_spec :
    ∀ f lo hi x, 32 ≤ lo → lo < hi → hi ≤ 127 → hi - lo ≤ f →
    (x ≤ maxExpArray lo ∨ lo = 32) → (maxExpArray hi < x ∨ hi = 127) →
    32 ≤ (findPosLoop f lo hi x).1 ∧
    (findPosLoop f lo hi x).1 + 1 = (findPosLoop f lo hi x).2 ∧
    (findPosLoop f lo hi x).2 ≤ 127 ∧
    (x ≤ maxExpArray (findPosLoop f lo hi x).1 ∨ (findPosLoop f lo hi x).1 = 32) ∧
    (maxExpArray (findPosLoop f lo hi x).2 < x ∨ (findPosLoop f lo hi x).2 = 127) := by
  intro f
  induction f with
  | zero =>
    intro lo hi x h32 hlt h127 hf hlo hhi
    omega
  | succ f ih =>
    intro lo hi x h32 hlt h127 hf hlo hhi
    show 32 ≤ (findPosLoop (f + 1) lo hi x).1 ∧ _
    rw [findPosLoop]
    by_cases hw : lo + 1 < hi
    · rw [if_pos hw]
      have hmidlo : lo < (lo + hi) / 2 := by omega
      have hmidhi : (lo + hi) / 2 < hi := by omega
      by_cases hcmp : x ≤ maxExpArray ((lo + hi) / 2)
      · rw [if_pos hcmp]
        exact ih _ hi x (by omega) hmidhi h127 (by omega) (Or.inl hcmp) hhi
      · rw [if_neg hcmp]
        exact ih lo _ x h32 hmidlo (by omega) (by omega) hlo (Or.inl (by omega))
    · rw [if_neg hw]
      exact ⟨h32, by omega, h127, hlo, hhi⟩

/-- C8: `findPositionInMaxExpArray` returns the highest index in `[32,127]`
whose table entry is at least the input when one exists, and fails exactly
when every table entry on `[32,127]` is below the input. -/
theorem C8_findPosition (x : ℕ) :
    (∀ k, findPositionInMaxExpArray x = some k →
      MIN_PRECISION ≤ k ∧ k ≤ MAX_PRECISION ∧ x ≤ maxExpArray k ∧
      ∀ j, MIN_PRECISION ≤ j → j ≤ MAX_PRECISION → x ≤ maxExpArray j → j ≤ k) ∧
    (findPositionInMaxExpArray x = none ↔
      ∀ k, MIN_PRECISION ≤ k → k ≤ MAX_PRECISION → maxExpArray k < x) := by
  have hspec := findPosLoop_spec 95 MIN_PRECISION MAX_PRECISION x
    (by norm_num [MIN_PRECISION]) (by norm_num [MIN_PRECISION, MAX_PRECISION])
    (by norm_num [MAX_PRECISION]) (by norm_num [MIN_PRECISION, MAX_PRECISION])
    (Or.inr rfl) (Or.inr rfl)
  set r := findPosLoop 95 MIN_PRECISION MAX_PRECISION x with hr
  obtain ⟨hr32, hrsucc, hr127, hrlo, hrhi⟩ := hspec
  have hunfold : findPositionInMaxExpArray x =
      (if x ≤ maxExpArray r.2 then some r.2
       else if x ≤ maxExpArray r.1 then some r.1 else none) := by
    rw [findPositionInMaxExpArray]
  simp only [MIN_PRECISION, MAX_PRECISION] at *
  constructor
  · intro k hk
    rw [hunfold] at hk
    by_cases h2 : x ≤ maxExpArray r.2
    · rw [if_pos h2] at hk
      obtain rfl : r.2 = k := Option.some_inj.mp hk
      rcases hrhi with h | h
      · omega
      · exact ⟨by omega, by omega, h2, fun j _ hj _ => by omega⟩
    · rw [if_neg h2] at hk
      by_cases h1 : x ≤ maxExpArray r.1
      · rw [if_pos h1] at hk
        obtain rfl : r.1 = k := Option.some_inj.mp hk
        refine ⟨hr32, by omega, h1, fun j hj32 hj127 hjx => ?_⟩
        by_contra hjk
        have hj2 : r.2 ≤ j := by omega
        have : maxExpArray j ≤ maxExpArray r.2 :=
          maxExpArray_antitone (by omega) hj2 hj127
        omega
      · rw [if_neg h1] at hk
        exact absurd hk (by simp)
  · rw [hunfold]
    constructor
    · intro hnone k hk32 hk127
      by_cases h2 : x ≤ maxExpArray r.2
      · rw [if_pos h2] at hnone; exact absurd hnone (by simp)
      · rw [if_neg h2] at hnone
        by_cases h1 : x ≤ maxExpArray r.1
        · rw [if_pos h1] at hnone; exact absurd hnone (by simp)
        · have hlo32 : r.1 = 32 := by
            rcases hrlo with h | h
            · omega
            · exact h
          rcases Nat.lt_or_ge k r.2 with hk | hk
          · have hkr : k = r.1 := by omega
            rw [hkr]
            omega
          · have : maxExpArray k ≤ maxExpArray r.2 :=
              maxExpArray_antitone (by omega) hk hk127
            omega
    · intro hall
      have h2 : maxExpArray r.2 < x := hall r.2 (by omega) hr127
      have h1 : maxExpArray r.1 < x := hall r.1 hr32 (by omega)
      rw [if_neg (by omega), if_neg (by omega)]

/-- Witness for C8: the characterization applied at a concrete input. -/
theorem C8_findPosition_witness :
    MIN_PRECISION ≤ 127 ∧ 127 ≤ MAX_PRECISION ∧ (0 : ℕ) ≤ maxExpArray 127 ∧
    ∀ j, MIN_PRECISION ≤ j → j ≤ MAX_PRECISION → (0 : ℕ) ≤ maxExpArray j → j ≤ 127 :=
  (C8_findPosition 0).1 127 (by decide)

lemma shiftRight_one (n : ℕ) : n >>> 1 = n / 2 := by
  rw [Nat.shiftRight_eq_div_pow, pow_one]

lemma lor_eq_add : ∀ {m a b : ℕ}, a % 2 ^ m = 0 → b < 2 ^ m → a ||| b = a + b := by
  intro m
  induction m with
  | zero =>
    intro a b _ hb
    have : b = 0 := by omega
    subst this
    simp
  | succ m ih =>
    intro a b ha hb
    have hp : (2:ℕ) ^ (m + 1) = 2 * 2 ^ m := by rw [pow_succ]; ring
    have hdvd : 2 ^ (m + 1) ∣ a := Nat.dvd_of_mod_eq_zero ha
    have ha2 : a % 2 = 0 := by
      have h2 : (2:ℕ) ∣ a := dvd_trans (dvd_pow_self 2 (Nat.succ_ne_zero m)) hdvd
      omega
    have hadiv : (a / 2) % 2 ^ m = 0 := by
      obtain ⟨q, rfl⟩ := hdvd
      rw [hp, mul_assoc, Nat.mul_div_cancel_left _ (by norm_num : 0 < 2)]
      exact Nat.mul_mod_right _ _
    have key : a ||| b = 2 * ((a / 2) ||| (b / 2)) + b % 2 := by
      have hd : (a ||| b) / 2 = a / 2 ||| b / 2 := Nat.or_div_two
      have hm : (a ||| b) % 2 = b % 2 := by
        rcases Nat.mod_two_eq_zero_or_one b with hb2 | hb2
        · rcases Nat.mod_two_eq_zero_or_one (a ||| b) with h | h
          · omega
          · have := Nat.or_mod_two_eq_one.mp h
            omega
        · have : (a ||| b) % 2 = 1 := Nat.or_mod_two_eq_one.mpr (Or.inr hb2)
          omega
      omega
    rw [key, ih hadiv (by omega : b / 2 < 2 ^ m)]
    omega

/-- The descending power-of-two width list `[2^(k-1), ..., 2, 1]` used by the
wide branch of `floorLog2`. -/
def bitList : ℕ → List ℕ
  | 0 => []
  | k + 1 => 2 ^ k :: bitList k

lemma bitList_eight : bitList 8 = [128, 64, 32, 16, 8, 4, 2, 1] := by
  simp [bitList]

lemma floorLog2Small_spec :
    ∀ f n res, 1 ≤ n → n < 2 ^ f →
    ∃ k, floorLog2Small f n res = res + k ∧ 2 ^ k ≤ n ∧ n < 2 ^ (k + 1) := by
  intro f
  induction f with
  | zero =>
    intro n res h1 h2
    norm_num at h2
    omega
  | succ f ih =>
    intro n res h1 h2
    simp only [floorLog2Small]
    by_cases hn : 1 < n
    · rw [if_pos hn]
      have hp : (2:ℕ) ^ (f + 1) = 2 * 2 ^ f := by rw [pow_succ]; ring
      obtain ⟨k, hk, hk1, hk2⟩ := ih (n >>> 1) (res + 1)
        (by rw [shiftRight_one]; omega) (by rw [shiftRight_one]; omega)
      rw [shiftRight_one] at hk1 hk2
      refine ⟨k + 1, by omega, ?_, ?_⟩
      · have : (2:ℕ) ^ (k + 1) = 2 * 2 ^ k := by rw [pow_succ]; ring
        omega
      · have : (2:ℕ) ^ (k + 2) = 2 * 2 ^ (k + 1) := by rw [pow_succ]; ring
        omega
    · rw [if_neg hn]
      have : n = 1 := by omega
      subst this
      exact ⟨0, by omega, by norm_num, by norm_num⟩

lemma floorLog2Big_spec :
    ∀ k n res, 1 ≤ n → n < 2 ^ 2 ^ k → res % 2 ^ k = 0 →
    ∃ t, floorLog2Big (bitList k) n res = res + t ∧ t < 2 ^ k ∧
      2 ^ t ≤ n ∧ n < 2 ^ (t + 1) := by
  intro k
  induction k with
  | zero =>
    intro n res h1 h2 _
    simp only [bitList, floorLog2Big]
    norm_num at h2
    have hn : n = 1 := by omega
    subst hn
    exact ⟨0, by omega, by norm_num, by norm_num, by norm_num⟩
  | succ k ih =>
    intro n res h1 h2 hres
    simp only [bitList, floorLog2Big]
    have hpos : (0:ℕ) < 2 ^ 2 ^ k := Nat.pos_pow_of_pos _ (by norm_num)
    have hone : ONE <<< 2 ^ k = 2 ^ 2 ^ k := one_shiftLeft _
    have h21 : (2:ℕ) ^ (k + 1) = 2 ^ k + 2 ^ k := by rw [pow_succ]; ring
    have hsq : (2:ℕ) ^ 2 ^ (k + 1) = 2 ^ 2 ^ k * 2 ^ 2 ^ k := by
      rw [← pow_add]
      congr 1
    have hreslow : res % 2 ^ k = 0 := by
      have hd : 2 ^ (k + 1) ∣ res := Nat.dvd_of_mod_eq_zero hres
      have hk1 : (2:ℕ) ^ k ∣ 2 ^ (k + 1) := pow_dvd_pow 2 (by omega)
      exact Nat.mod_eq_zero_of_dvd (hk1.trans hd)
    by_cases hc : ONE <<< 2 ^ k ≤ n
    · rw [if_pos hc]
      rw [hone] at hc
      have hsh : n >>> 2 ^ k = n / 2 ^ 2 ^ k := Nat.shiftRight_eq_div_pow ..
      have hn1 : 1 ≤ n >>> 2 ^ k := by
        rw [hsh]
        exact (Nat.one_le_div_iff hpos).mpr hc
      have hnlt : n >>> 2 ^ k < 2 ^ 2 ^ k := by
        rw [hsh]
        apply Nat.div_lt_of_lt_mul
        rw [← hsq]
        exact h2
      have hor : res ||| 2 ^ k = res + 2 ^ k := lor_eq_add hres (by omega)
      have hres2 : (res + 2 ^ k) % 2 ^ k = 0 := by
        rw [Nat.add_mod_right]
        exact hreslow
      rw [hor]
      obtain ⟨t, ht, ht1, ht2, ht3⟩ := ih (n >>> 2 ^ k) (res + 2 ^ k) hn1 hnlt hres2
      refine ⟨2 ^ k + t, by omega, by omega, ?_, ?_⟩
      · rw [pow_add]
        rw [hsh] at ht2
        calc 2 ^ 2 ^ k * 2 ^ t ≤ 2 ^ 2 ^ k * (n / 2 ^ 2 ^ k) :=
              Nat.mul_le_mul_left _ ht2
        _ ≤ n := by rw [mul_comm]; exact Nat.div_mul_le_self ..
      · rw [hsh] at ht3
        have hlt := (Nat.div_lt_iff_lt_mul hpos).mp ht3
        calc n < 2 ^ (t + 1) * 2 ^ 2 ^ k := hlt
        _ = 2 ^ (2 ^ k + t + 1) := by rw [← pow_add]; congr 1; omega
    · rw [if_neg hc]
      rw [hone] at hc
      obtain ⟨t, ht, ht1, ht2, ht3⟩ := ih n res h1 (by omega) hreslow
      exact ⟨t, ht, by omega, ht2, ht3⟩

lemma floorLog2_correct {n : ℕ} (h1 : 1 ≤ n) (h2 : n < 2 ^ 256) :
    2 ^ floorLog2 n ≤ n ∧ n < 2 ^ (floorLog2 n + 1) := by
  unfold floorLog2
  by_cases hs : n < 256
  · rw [if_pos hs]
    obtain ⟨k, hk, hk1, hk2⟩ := floorLog2Small_spec 8 n 0 h1 (by norm_num; omega)
    rw [hk]
    simpa using ⟨hk1, hk2⟩
  · rw [if_neg hs, ← bitList_eight]
    obtain ⟨t, ht, _, ht2, ht3⟩ := floorLog2Big_spec 8 n 0 h1 (by norm_num; omega) (by simp)
    rw [ht]
    simpa using ⟨ht2, ht3⟩

lemma floorLog2_mono {m n : ℕ} (h1 : 1 ≤ m) (hmn : m ≤ n) (h2 : n < 2 ^ 256) :
    floorLog2 m ≤ floorLog2 n := by
  by_contra h
  push_neg at h
  obtain ⟨hm1, hm2⟩ := floorLog2_correct h1 (lt_of_le_of_lt hmn h2)
  obtain ⟨hn1, hn2⟩ := floorLog2_correct (le_trans h1 hmn) h2
  have : 2 ^ (floorLog2 n + 1) ≤ 2 ^ floorLog2 m := Nat.pow_le_pow_right (by norm_num) h
  omega

lemma shiftRight_le_shiftRight {a b : ℕ} (h : a ≤ b) (k : ℕ) : a >>> k ≤ b >>> k := by
  rw [Nat.shiftRight_eq_div_pow, Nat.shiftRight_eq_div_pow]
  exact Nat.div_le_div_right h

lemma lnLoop_ge : ∀ i x res, res ≤ (lnLoop i (x, res)).2 := by
  intro i
  induction i with
  | zero => intro x res; exact le_refl _
  | succ i ih =>
    intro x res
    show res ≤ (lnLoop i (lnIter (i + 1) (x, res))).2
    unfold lnIter
    split
    · exact le_trans (Nat.le_add_right _ _) (ih _ _)
    · exact ih _ _

lemma lnLoop_le : ∀ i x res, (lnLoop i (x, res)).2 ≤ res + (2 ^ i - 1) := by
  intro i
  induction i with
  | zero => intro x res; simp [lnLoop]
  | succ i ih =>
    intro x res
    show (lnLoop i (lnIter (i + 1) (x, res))).2 ≤ _
    have hp : (2:ℕ) ^ (i + 1) = 2 ^ i + 2 ^ i := by rw [pow_succ]; ring
    have hpos : (1:ℕ) ≤ 2 ^ i := Nat.one_le_two_pow
    unfold lnIter
    dsimp only
    split
    · simp only [Nat.add_sub_cancel, one_shiftLeft]
      have := ih ((x * x / FIXED_1) >>> 1) (res + 2 ^ i)
      omega
    · have := ih (x * x / FIXED_1) res
      omega

lemma lnLoop_mono : ∀ i x y res, x ≤ y →
    (lnLoop i (x, res)).2 ≤ (lnLoop i (y, res)).2 := by
  intro i
  induction i with
  | zero => intro x y res _; exact le_refl _
  | succ i ih =>
    intro x y res hxy
    show (lnLoop i (lnIter (i + 1) (x, res))).2 ≤ (lnLoop i (lnIter (i + 1) (y, res))).2
    have hsq : x * x / FIXED_1 ≤ y * y / FIXED_1 :=
      Nat.div_le_div_right (Nat.mul_le_mul hxy hxy)
    have hpos : (1:ℕ) ≤ 2 ^ i := Nat.one_le_two_pow
    unfold lnIter
    dsimp only
    by_cases hx : FIXED_2 ≤ x * x / FIXED_1
    · have hy : FIXED_2 ≤ y * y / FIXED_1 := le_trans hx hsq
      rw [if_pos hx, if_pos hy]
      simp only [Nat.add_sub_cancel, one_shiftLeft]
      exact ih _ _ _ (Nat.div_le_div_right hsq)
    · rw [if_neg hx]
      by_cases hy : FIXED_2 ≤ y * y / FIXED_1
      · rw [if_pos hy]
        simp only [Nat.add_sub_cancel, one_shiftLeft]
        have h1 := lnLoop_le i (x * x / FIXED_1) res
        have h2 := lnLoop_ge i ((y * y / FIXED_1) >>> 1) (res + 2 ^ i)
        omega
      · rw [if_neg hy]
        exact ih _ _ _ hsq

/-- The fractional phase of `ln`: run the bit loop only when the
normalized ratio still exceeds one, then report the accumulator. -/
def lnFrac (x res : ℕ) : ℕ :=
  (if FIXED_1 < x then lnLoop MAX_PRECISION (x, res) else (x, res)).2

lemma lnBody_eq (x0 : ℕ) :
    lnBody x0 =
      ((if FIXED_2 ≤ x0 then
          lnFrac (x0 >>> floorLog2 (x0 / FIXED_1)) (floorLog2 (x0 / FIXED_1) * FIXED_1)
        else lnFrac x0 0) * LN2_MANTISSA) >>> LN2_EXPONENT := by
  unfold lnBody lnFrac
  by_cases h : FIXED_2 ≤ x0 <;> simp [h]

lemma lnFrac_ge (x res : ℕ) : res ≤ lnFrac x res := by
  unfold lnFrac
  split
  · exact lnLoop_ge _ _ _
  · exact le_refl _

lemma lnFrac_le (x res : ℕ) : lnFrac x res ≤ res + (2 ^ 127 - 1) := by
  unfold lnFrac
  split
  · exact lnLoop_le _ _ _
  · omega

lemma lnFrac_mono {x y : ℕ} (res : ℕ) (h : x ≤ y) : lnFrac x res ≤ lnFrac y res := by
  unfold lnFrac
  by_cases hx : FIXED_1 < x
  · rw [if_pos hx, if_pos (lt_of_lt_of_le hx h)]
    exact lnLoop_mono _ _ _ _ h
  · rw [if_neg hx]
    split
    · exact lnLoop_ge _ _ _
    · exact le_refl _

lemma FIXED_1_eq : FIXED_1 = 2 ^ 127 := by norm_num [FIXED_1]

lemma FIXED_2_eq : FIXED_2 = 2 ^ 128 := by norm_num [FIXED_2]

lemma lnBody_mono {x0 x1 : ℕ} (h : x0 ≤ x1) (hb : x1 / FIXED_1 < 2 ^ 256) :
    lnBody x0 ≤ lnBody x1 := by
  rw [lnBody_eq, lnBody_eq]
  have key : (if FIXED_2 ≤ x0 then
        lnFrac (x0 >>> floorLog2 (x0 / FIXED_1)) (floorLog2 (x0 / FIXED_1) * FIXED_1)
      else lnFrac x0 0) ≤
      (if FIXED_2 ≤ x1 then
        lnFrac (x1 >>> floorLog2 (x1 / FIXED_1)) (floorLog2 (x1 / FIXED_1) * FIXED_1)
      else lnFrac x1 0) := by
    by_cases h0 : FIXED_2 ≤ x0
    · have h1' : FIXED_2 ≤ x1 := le_trans h0 h
      rw [if_pos h0, if_pos h1']
      have hx0ge : 1 ≤ x0 / FIXED_1 := by
        rw [FIXED_1_eq]
        rw [FIXED_2_eq] at h0
        exact (Nat.one_le_div_iff (by positivity)).mpr (le_trans (by norm_num) h0)
      have hdivmono : x0 / FIXED_1 ≤ x1 / FIXED_1 := Nat.div_le_div_right h
      have hcc : floorLog2 (x0 / FIXED_1) ≤ floorLog2 (x1 / FIXED_1) :=
        floorLog2_mono hx0ge hdivmono hb
      rcases eq_or_lt_of_le hcc with heq | hlt
      · rw [heq]
        refine lnFrac_mono _ ?_
        rw [← heq]
        exact shiftRight_le_shiftRight h _
      · have hle := lnFrac_le (x0 >>> floorLog2 (x0 / FIXED_1))
          (floorLog2 (x0 / FIXED_1) * FIXED_1)
        have hge := lnFrac_ge (x1 >>> floorLog2 (x1 / FIXED_1))
          (floorLog2 (x1 / FIXED_1) * FIXED_1)
        have hstep : (floorLog2 (x0 / FIXED_1) + 1) * FIXED_1 ≤
            floorLog2 (x1 / FIXED_1) * FIXED_1 := Nat.mul_le_mul_right _ hlt
        rw [FIXED_1_eq] at hle hge hstep ⊢
        omega
    · rw [if_neg h0]
      by_cases h1' : FIXED_2 ≤ x1
      · rw [if_pos h1']
        have hle := lnFrac_le x0 0
        have hge := lnFrac_ge (x1 >>> floorLog2 (x1 / FIXED_1))
          (floorLog2 (x1 / FIXED_1) * FIXED_1)
        have h2le : 2 ≤ x1 / FIXED_1 := by
          rw [FIXED_2_eq] at h1'
          rw [FIXED_1_eq]
          refine (Nat.le_div_iff_mul_le (by positivity)).mpr ?_
          norm_num at h1' ⊢
          omega
        have hc1 : 1 ≤ floorLog2 (x1 / FIXED_1) := by
          by_contra hcon
          push_neg at hcon
          obtain ⟨_, hup⟩ := floorLog2_correct (by omega) hb
          have hfl : floorLog2 (x1 / FIXED_1) = 0 := by omega
          rw [hfl] at hup
          norm_num at hup
          omega
        have hstep : 1 * FIXED_1 ≤ floorLog2 (x1 / FIXED_1) * FIXED_1 :=
          Nat.mul_le_mul_right _ hc1
        rw [FIXED_1_eq] at hge hstep ⊢
        omega
      · rw [if_neg h1']
        exact lnFrac_mono 0 h
  exact shiftRight_le_shiftRight (Nat.mul_le_mul_right _ key) _

lemma ln_some {n d v : ℕ} (h : ln n d = some v) :
    n ≤ MAX_NUM ∧ v = lnBody (n * FIXED_1 / d) := by
  unfold ln at h
  split at h
  · exact ⟨by assumption, (Option.some_inj.mp h).symm⟩
  · exact absurd h (by simp)

lemma ln_ratio_bound {n d : ℕ} (hn : n ≤ MAX_NUM) :
    (n * FIXED_1 / d) / FIXED_1 < 2 ^ 256 := by
  have h1 : n * FIXED_1 / d ≤ n * FIXED_1 := Nat.div_le_self _ _
  have h2 : (n * FIXED_1 / d) / FIXED_1 ≤ n * FIXED_1 / FIXED_1 :=
    Nat.div_le_div_right h1
  have h3 : n * FIXED_1 / FIXED_1 = n :=
    Nat.mul_div_cancel _ (by rw [FIXED_1_eq]; positivity)
  have : n < 2 ^ 256 := lt_of_le_of_lt hn (by norm_num [MAX_NUM])
  omega

lemma ln_mono_num {n1 n2 d v1 v2 : ℕ} (h : n1 ≤ n2)
    (h1 : ln n1 d = some v1) (h2 : ln n2 d = some v2) : v1 ≤ v2 := by
  obtain ⟨hm1, hv1⟩ := ln_some h1
  obtain ⟨hm2, hv2⟩ := ln_some h2
  rw [hv1, hv2]
  exact lnBody_mono (Nat.div_le_div_right (Nat.mul_le_mul_right _ h)) (ln_ratio_bound hm2)

lemma ln_anti_denom {n d1 d2 v1 v2 : ℕ} (hd : d2 ≤ d1) (hd2 : 0 < d2)
    (h1 : ln n d1 = some v1) (h2 : ln n d2 = some v2) : v1 ≤ v2 := by
  obtain ⟨hm1, hv1⟩ := ln_some h1
  obtain ⟨hm2, hv2⟩ := ln_some h2
  rw [hv1, hv2]
  exact lnBody_mono (Nat.div_le_div_left hd hd2) (ln_ratio_bound hm2)

lemma fixedExpLoop_mono :
    ∀ cs x y p a1 b1 a2 b2, x ≤ y → a1 ≤ a2 → b1 ≤ b2 →
    (fixedExpLoop cs x p (a1, b1)).2 ≤ (fixedExpLoop cs y p (a2, b2)).2 := by
  intro cs
  induction cs with
  | nil =>
    intro x y p a1 b1 a2 b2 _ _ hb
    exact hb
  | cons c cs ih =>
    intro x y p a1 b1 a2 b2 hxy ha hb
    show (fixedExpLoop cs x p _).2 ≤ (fixedExpLoop cs y p _).2
    dsimp only
    refine ih x y p _ _ _ _ hxy ?_ ?_
    · exact shiftRight_le_shiftRight (Nat.mul_le_mul ha hxy) _
    · exact Nat.add_le_add hb
        (Nat.mul_le_mul_right _ (shiftRight_le_shiftRight (Nat.mul_le_mul ha hxy) _))

lemma fixedExp_mono {x y : ℕ} (p : ℕ) (h : x ≤ y) : fixedExp x p ≤ fixedExp y p := by
  unfold fixedExp
  have := fixedExpLoop_mono fixedExpCoeffs x y p x 0 y 0 h h (le_refl 0)
  have hdiv := Nat.div_le_div_right (c := fixedExpNorm) this
  omega

lemma div_le_div_cross {a b c d : ℕ} (h : a * d ≤ c * b) (hb : 0 < b) (hd : 0 < d) :
    a / b ≤ c / d := by
  rw [Nat.le_div_iff_mul_le hd]
  have h1 : a / b * d * b ≤ a * d := by
    calc a / b * d * b = a / b * b * d := by ring
    _ ≤ a * d := Nat.mul_le_mul_right _ (Nat.div_mul_le_self a b)
  have h2 : a / b * d ≤ a * d / b := (Nat.le_div_iff_mul_le hb).mpr h1
  calc a / b * d ≤ a * d / b := h2
  _ ≤ c * b / b := Nat.div_le_div_right h
  _ = c := Nat.mul_div_cancel _ hb

lemma sale_general_value {r res p : ℕ} (hres : 2 ^ p ≤ res) :
    Int.fdiv (((r * res : ℕ) : ℤ) - ((r <<< p : ℕ) : ℤ)) ((res : ℕ) : ℤ) =
      ((r * res - r * 2 ^ p) / res : ℕ) := by
  have hle : r * 2 ^ p ≤ r * res := Nat.mul_le_mul_left r hres
  rw [Nat.shiftLeft_eq, ← Nat.cast_sub hle,
    Int.fdiv_eq_ediv _ (Int.natCast_nonneg res)]
  exact (Int.ofNat_ediv _ _).symm

/-- The precision that the general purchase path selects: the position of
`ln((d + r) / r) * c / MAX_CRR` in the table. -/
def purchasePrecision (r c d : ℕ) : Option ℕ :=
  (ln (d + r) r).bind fun l => findPositionInMaxExpArray (l * c / MAX_CRR)

/-- The precision that the general sale path selects: the position of
`ln(s / (s - a)) * MAX_CRR / c` in the table. -/
def salePrecision (s c a : ℕ) : Option ℕ :=
  (ln s (s - a)).bind fun l => findPositionInMaxExpArray (l * MAX_CRR / c)

lemma purchasePrecision_of_power {r c d bn res p : ℕ} (hbn : safeAdd d r = some bn)
    (h : power bn r c MAX_CRR = some (res, p)) : purchasePrecision r c d = some p := by
  obtain ⟨l, hl, hfp, _⟩ := power_inv h
  obtain ⟨rfl, _⟩ := safeAdd_some hbn
  unfold purchasePrecision
  rw [hl]
  simpa using hfp

lemma salePrecision_of_power {s c a res p : ℕ}
    (h : power s (s - a) MAX_CRR c = some (res, p)) : salePrecision s c a = some p := by
  obtain ⟨l, hl, hfp, _⟩ := power_inv h
  unfold salePrecision
  rw [hl]
  simpa using hfp

lemma purchase_zero_value {s r c : ℕ} {v : ℤ}
    (h : calculatePurchaseReturn s r c 0 = some v) : v = 0 := by
  rcases (purchase_inv h).2 with ⟨_, hv⟩ | ⟨_, m, hm, hv⟩ | ⟨hd, _, _⟩
  · exact hv
  · obtain ⟨hm1, _⟩ := safeMul_some hm
    rw [hv, hm1]
    simp
  · exact absurd rfl hd

lemma sale_zero_value {s r c : ℕ} {v : ℤ}
    (h : calculateSaleReturn s r c 0 = some v) : v = 0 := by
  rcases (sale_inv h).2 with ⟨_, hv⟩ | ⟨ha, _, _⟩ | ⟨ha, _, _⟩ | ⟨ha, _, _⟩
  · exact hv
  · exact absurd rfl ha
  · exact absurd rfl ha
  · exact absurd rfl ha

lemma sale_le_reserve {s r c a : ℕ} {v : ℤ}
    (h : calculateSaleReturn s r c a = some v) : v ≤ (r : ℤ) := by
  obtain ⟨⟨hs, hr, hc, hcm, has⟩, hcases⟩ := sale_inv h
  rcases hcases with ⟨_, hv⟩ | ⟨_, _, hv⟩ | ⟨_, _, _, m, hm, hv⟩ |
    ⟨_, _, _, res, p, hp, _, hv⟩
  · rw [hv]; exact Int.natCast_nonneg _
  · rw [hv]
  · obtain ⟨hm1, _⟩ := safeMul_some hm
    rw [hv, hm1]
    have : r * a / s ≤ r := by
      calc r * a / s ≤ r * s / s := Nat.div_le_div_right (Nat.mul_le_mul_left _ has)
      _ = r := Nat.mul_div_cancel _ hs
    exact_mod_cast this
  · have hres : 2 ^ p ≤ res := power_some_lower hp
    have hrespos : 0 < res := lt_of_lt_of_le (by positivity) hres
    rw [hv, sale_general_value hres]
    have : (r * res - r * 2 ^ p) / res ≤ r := by
      calc (r * res - r * 2 ^ p) / res ≤ r * res / res :=
            Nat.div_le_div_right (Nat.sub_le _ _)
      _ = r := Nat.mul_div_cancel _ hrespos
    exact_mod_cast this

/-- Scaled lower bound for the Mercator series of `log 2`: partial sums of
`floor(2^200 / ((i+1) * 2^(i+1)))`. -/
def lnTwoLowerAux : ℕ → ℕ
  | 0 => 0
  | k + 1 => lnTwoLowerAux k + 2 ^ 200 / ((k + 1) * 2 ^ (k + 1))

lemma lnTwoLowerAux_le (n : ℕ) :
    (lnTwoLowerAux n : ℝ) ≤ 2 ^ 200 * ∑ i ∈ Finset.range n, (1 / 2 : ℝ) ^ (i + 1) / (i + 1) := by
  induction n with
  | zero => simp [lnTwoLowerAux]
  | succ n ih =>
    rw [Finset.sum_range_succ, mul_add]
    have hterm : ((2 ^ 200 / ((n + 1) * 2 ^ (n + 1)) : ℕ) : ℝ) ≤
        2 ^ 200 * ((1 / 2 : ℝ) ^ (n + 1) / (n + 1)) := by
      have hcast := Nat.cast_div_le (α := ℝ) (m := 2 ^ 200) (n := (n + 1) * 2 ^ (n + 1))
      push_cast at hcast
      refine le_trans hcast (le_of_eq ?_)
      have hne1 : ((n : ℝ) + 1) ≠ 0 := by positivity
      have hne2 : ((2 : ℝ) ^ (n + 1)) ≠ 0 := by positivity
      field_simp
      ring
    have hrec : (lnTwoLowerAux (n + 1) : ℝ) =
        (lnTwoLowerAux n : ℝ) + ((2 ^ 200 / ((n + 1) * 2 ^ (n + 1)) : ℕ) : ℝ) := by
      show ((lnTwoLowerAux n + 2 ^ 200 / ((n + 1) * 2 ^ (n + 1)) : ℕ) : ℝ) = _
      push_cast
      ring
    rw [hrec]
    exact add_le_add ih hterm

lemma log_two_ge (n : ℕ) :
    (lnTwoLowerAux n : ℝ) / 2 ^ 200 - (1 / 2) ^ n ≤ Real.log 2 := by
  have hsum := lnTwoLowerAux_le n
  have hx : |(1 / 2 : ℝ)| < 1 := by
    rw [abs_of_pos (by norm_num : (0:ℝ) < 1 / 2)]
    norm_num
  have habs := Real.abs_log_sub_add_sum_range_le hx n
  have e2 : Real.log (1 - (1 / 2 : ℝ)) = -Real.log 2 := by
    rw [show (1 : ℝ) - 1 / 2 = (2 : ℝ)⁻¹ by norm_num, Real.log_inv]
  have e3 : |(1 / 2 : ℝ)| ^ (n + 1) / (1 - |(1 / 2 : ℝ)|) = (1 / 2) ^ n := by
    rw [abs_of_pos (by norm_num : (0:ℝ) < 1 / 2), pow_succ]
    field_simp
    ring
  rw [e2, e3] at habs
  have h2 := (abs_le.mp habs).2
  have h3 : (lnTwoLowerAux n : ℝ) / 2 ^ 200 ≤
      ∑ i ∈ Finset.range n, (1 / 2 : ℝ) ^ (i + 1) / (i + 1) := by
    rw [div_le_iff₀ (by positivity)]
    linarith
  linarith

set_option maxRecDepth 1000000 in
lemma lnTwoLowerAux_num :
    LN2_MANTISSA * 2 ^ 78 + 2 ^ 60 ≤ lnTwoLowerAux 140 ∧
    (117932881612756647068972071382077242176 + 1) * 2 ^ 73 + 2 ^ 60 ≤ lnTwoLowerAux 140 := by
  decide

lemma ln2_mantissa_le : (LN2_MANTISSA : ℝ) ≤ Real.log 2 * 2 ^ 122 := by
  have hnat := lnTwoLowerAux_num.1
  have h140 := log_two_ge 140
  have hhalf : ((1 : ℝ) / 2) ^ 140 * 2 ^ 200 = 2 ^ 60 := by
    rw [one_div, inv_pow, ← Real.rpow_natCast 2 140, ← Real.rpow_natCast 2 200,
      ← Real.rpow_natCast 2 60, ← Real.rpow_neg (by norm_num), ← Real.rpow_add (by norm_num)]
    norm_num
  have hlog : (lnTwoLowerAux 140 : ℝ) - 2 ^ 60 ≤ Real.log 2 * 2 ^ 200 := by
    have := mul_le_mul_of_nonneg_right h140 (by positivity : (0:ℝ) ≤ 2 ^ 200)
    rw [sub_mul, div_mul_cancel₀ _ (by positivity : (2:ℝ) ^ 200 ≠ 0), hhalf] at this
    linarith
  have hA : (LN2_MANTISSA : ℝ) * 2 ^ 78 + 2 ^ 60 ≤ (lnTwoLowerAux 140 : ℝ) := by
    exact_mod_cast hnat
  have hfinal : (LN2_MANTISSA : ℝ) * 2 ^ 78 ≤ (Real.log 2 * 2 ^ 122) * 2 ^ 78 := by
    have h200 : (Real.log 2 * 2 ^ 122) * 2 ^ 78 = Real.log 2 * 2 ^ 200 := by
      rw [mul_assoc, ← pow_add]
    rw [h200]
    linarith
  exact le_of_mul_le_mul_right hfinal (by positivity)

lemma log_two_ge_counterexample :
    ((117932881612756647068972071382077242176 : ℕ) : ℝ) + 1 ≤ Real.log 2 * 2 ^ 127 := by
  have hnat := lnTwoLowerAux_num.2
  have h140 := log_two_ge 140
  have hhalf : ((1 : ℝ) / 2) ^ 140 * 2 ^ 200 = 2 ^ 60 := by
    rw [one_div, inv_pow, ← Real.rpow_natCast 2 140, ← Real.rpow_natCast 2 200,
      ← Real.rpow_natCast 2 60, ← Real.rpow_neg (by norm_num), ← Real.rpow_add (by norm_num)]
    norm_num
  have hlog : (lnTwoLowerAux 140 : ℝ) - 2 ^ 60 ≤ Real.log 2 * 2 ^ 200 := by
    have := mul_le_mul_of_nonneg_right h140 (by positivity : (0:ℝ) ≤ 2 ^ 200)
    rw [sub_mul, div_mul_cancel₀ _ (by positivity : (2:ℝ) ^ 200 ≠ 0), hhalf] at this
    linarith
  have hA : (((117932881612756647068972071382077242176 : ℕ) : ℝ) + 1) * 2 ^ 73 + 2 ^ 60 ≤
      (lnTwoLowerAux 140 : ℝ) := by
    exact_mod_cast hnat
  have hfinal : (((117932881612756647068972071382077242176 : ℕ) : ℝ) + 1) * 2 ^ 73 ≤
      (Real.log 2 * 2 ^ 127) * 2 ^ 73 := by
    have h200 : (Real.log 2 * 2 ^ 127) * 2 ^ 73 = Real.log 2 * 2 ^ 200 := by
      rw [mul_assoc, ← pow_add]
    rw [h200]
    linarith
  exact le_of_mul_le_mul_right hfinal (by positivity)

lemma FIXED_1_pos : (0:ℕ) < FIXED_1 := by
  rw [FIXED_1_eq]
  positivity

lemma lnLoop_le_log : ∀ i x res, FIXED_1 ≤ x →
    ((lnLoop i (x, res)).2 : ℝ) ≤ (res : ℝ) + 2 ^ i * Real.logb 2 ((x : ℝ) / FIXED_1) := by
  intro i
  induction i with
  | zero =>
    intro x res hx
    have hxF1 : (1:ℝ) ≤ (x : ℝ) / FIXED_1 := by
      rw [le_div_iff₀ (by exact_mod_cast FIXED_1_pos)]
      rw [one_mul]
      exact_mod_cast hx
    have hnn : (0:ℝ) ≤ Real.logb 2 ((x : ℝ) / FIXED_1) :=
      Real.logb_nonneg one_lt_two hxF1
    show ((res : ℕ) : ℝ) ≤ _
    rw [pow_zero, one_mul]
    linarith
  | succ i ih =>
    intro x res hx
    show ((lnLoop i (lnIter (i + 1) (x, res))).2 : ℝ) ≤ _
    have hF1pos : (0:ℕ) < FIXED_1 := FIXED_1_pos
    have hF1posR : (0:ℝ) < ((FIXED_1 : ℕ) : ℝ) := by exact_mod_cast hF1pos
    have hx' : FIXED_1 ≤ x * x / FIXED_1 := by
      rw [Nat.le_div_iff_mul_le hF1pos]
      exact Nat.mul_le_mul hx hx
    have hx'le : ((x * x / FIXED_1 : ℕ) : ℝ) ≤ (x : ℝ) * x / FIXED_1 := by
      have h := Nat.cast_div_le (α := ℝ) (m := x * x) (n := FIXED_1)
      push_cast at h ⊢
      exact h
    have hxF1 : (1:ℝ) ≤ (x : ℝ) / FIXED_1 := by
      rw [le_div_iff₀ hF1posR, one_mul]
      exact_mod_cast hx
    have hx'pos : (0:ℝ) < ((x * x / FIXED_1 : ℕ) : ℝ) := by
      exact_mod_cast lt_of_lt_of_le hF1pos hx'
    have hkey : Real.logb 2 (((x * x / FIXED_1 : ℕ) : ℝ) / FIXED_1) ≤
        2 * Real.logb 2 ((x : ℝ) / FIXED_1) := by
      have h1 : ((x * x / FIXED_1 : ℕ) : ℝ) / FIXED_1 ≤
          ((x : ℝ) / FIXED_1) * ((x : ℝ) / FIXED_1) := by
        rw [div_le_iff₀ hF1posR]
        calc ((x * x / FIXED_1 : ℕ) : ℝ) ≤ (x : ℝ) * x / FIXED_1 := hx'le
        _ = (x : ℝ) / FIXED_1 * ((x : ℝ) / FIXED_1) * FIXED_1 := by
            field_simp
            ring
      have hpos1 : (0:ℝ) < ((x * x / FIXED_1 : ℕ) : ℝ) / FIXED_1 :=
        div_pos hx'pos hF1posR
      have hne : ((x : ℝ) / FIXED_1) ≠ 0 := by positivity
      calc Real.logb 2 (((x * x / FIXED_1 : ℕ) : ℝ) / FIXED_1)
          ≤ Real.logb 2 (((x : ℝ) / FIXED_1) * ((x : ℝ) / FIXED_1)) :=
            Real.logb_le_logb_of_le one_lt_two hpos1 h1
      _ = 2 * Real.logb 2 ((x : ℝ) / FIXED_1) := by
            rw [Real.logb_mul hne hne]
            ring
    have hLnn : (0:ℝ) ≤ Real.logb 2 ((x : ℝ) / FIXED_1) :=
      Real.logb_nonneg one_lt_two hxF1
    have hpowpos : (0:ℝ) < 2 ^ i := by positivity
    unfold lnIter
    dsimp only
    by_cases hcase : FIXED_2 ≤ x * x / FIXED_1
    · rw [if_pos hcase]
      simp only [Nat.add_sub_cancel, one_shiftLeft]
      have hF2eq : FIXED_2 = 2 * FIXED_1 := by
        rw [FIXED_1_eq, FIXED_2_eq]
        ring
      have hxx2 : FIXED_1 ≤ (x * x / FIXED_1) >>> 1 := by
        rw [shiftRight_one]
        omega
      have hih := ih ((x * x / FIXED_1) >>> 1) (res + 2 ^ i) hxx2
      refine le_trans hih ?_
      have hx''le : (((x * x / FIXED_1) >>> 1 : ℕ) : ℝ) ≤
          ((x * x / FIXED_1 : ℕ) : ℝ) / 2 := by
        rw [shiftRight_one]
        have h := Nat.cast_div_le (α := ℝ) (m := x * x / FIXED_1) (n := 2)
        push_cast at h ⊢
        exact h
      have hx''pos : (0:ℝ) < (((x * x / FIXED_1) >>> 1 : ℕ) : ℝ) := by
        exact_mod_cast lt_of_lt_of_le hF1pos hxx2
      have hstep : Real.logb 2 ((((x * x / FIXED_1) >>> 1 : ℕ) : ℝ) / FIXED_1) + (1:ℝ) ≤
          Real.logb 2 (((x * x / FIXED_1 : ℕ) : ℝ) / FIXED_1) := by
        have hpos2 : (0:ℝ) < (((x * x / FIXED_1) >>> 1 : ℕ) : ℝ) / FIXED_1 :=
          div_pos hx''pos hF1posR
        have h2 : (2:ℝ) * ((((x * x / FIXED_1) >>> 1 : ℕ) : ℝ) / FIXED_1) ≤
            ((x * x / FIXED_1 : ℕ) : ℝ) / FIXED_1 := by
          rw [← mul_div_assoc]
          gcongr
          linarith
        have hlogmul : Real.logb 2 ((2:ℝ) * ((((x * x / FIXED_1) >>> 1 : ℕ) : ℝ) / FIXED_1)) =
            (1:ℝ) + Real.logb 2 ((((x * x / FIXED_1) >>> 1 : ℕ) : ℝ) / FIXED_1) := by
          rw [Real.logb_mul two_ne_zero (ne_of_gt hpos2),
            Real.logb_self_eq_one one_lt_two]
        have hmono := Real.logb_le_logb_of_le one_lt_two (by positivity) h2
        linarith
      push_cast
      rw [pow_succ]
      have hp1 := mul_le_mul_of_nonneg_left hstep (le_of_lt hpowpos)
      have hp2 := mul_le_mul_of_nonneg_left hkey (le_of_lt hpowpos)
      nlinarith [hp1, hp2]
    · rw [if_neg hcase]
      have hih := ih (x * x / FIXED_1) res hx'
      refine le_trans hih ?_
      rw [pow_succ]
      have hp2 := mul_le_mul_of_nonneg_left hkey (le_of_lt hpowpos)
      nlinarith [hp2]

lemma lnFrac_le_log {x : ℕ} (res : ℕ) (hx : FIXED_1 ≤ x) :
    ((lnFrac x res : ℕ) : ℝ) ≤ res + 2 ^ 127 * Real.logb 2 ((x : ℝ) / FIXED_1) := by
  have hxF1 : (1:ℝ) ≤ (x : ℝ) / FIXED_1 := by
    rw [le_div_iff₀ (by exact_mod_cast FIXED_1_pos), one_mul]
    exact_mod_cast hx
  have hnn : (0:ℝ) ≤ Real.logb 2 ((x : ℝ) / FIXED_1) :=
    Real.logb_nonneg one_lt_two hxF1
  unfold lnFrac
  split
  · exact lnLoop_le_log 127 x res hx
  · have : (0:ℝ) ≤ 2 ^ 127 * Real.logb 2 ((x : ℝ) / FIXED_1) := by positivity
    simp only [Prod.snd]
    linarith

lemma cast_FIXED_1 : ((FIXED_1 : ℕ) : ℝ) = 2 ^ 127 := by
  rw [FIXED_1_eq]
  push_cast
  norm_num

lemma lnBody_le_log {x0 : ℕ} (h1 : FIXED_1 ≤ x0) (hb : x0 / FIXED_1 < 2 ^ 256) :
    ((lnBody x0 : ℕ) : ℝ) ≤ Real.log ((x0 : ℝ) / FIXED_1) * 2 ^ 127 := by
  have hF1posR : (0:ℝ) < ((FIXED_1 : ℕ) : ℝ) := by exact_mod_cast FIXED_1_pos
  have hx0F1 : (1:ℝ) ≤ (x0 : ℝ) / FIXED_1 := by
    rw [le_div_iff₀ hF1posR, one_mul]
    exact_mod_cast h1
  have hx0pos : (0:ℝ) < (x0 : ℝ) / FIXED_1 := lt_of_lt_of_le one_pos hx0F1
  have hlogbnn : (0:ℝ) ≤ Real.logb 2 ((x0 : ℝ) / FIXED_1) :=
    Real.logb_nonneg one_lt_two hx0F1
  have hAbound : ((if FIXED_2 ≤ x0 then
      lnFrac (x0 >>> floorLog2 (x0 / FIXED_1)) (floorLog2 (x0 / FIXED_1) * FIXED_1)
    else lnFrac x0 0 : ℕ) : ℝ) ≤ 2 ^ 127 * Real.logb 2 ((x0 : ℝ) / FIXED_1) := by
    by_cases h2 : FIXED_2 ≤ x0
    · rw [if_pos h2]
      have hdge : 1 ≤ x0 / FIXED_1 := (Nat.one_le_div_iff FIXED_1_pos).mpr h1
      obtain ⟨hclo, hchi⟩ := floorLog2_correct hdge hb
      rw [Nat.le_div_iff_mul_le FIXED_1_pos] at hclo
      have hx1 : FIXED_1 ≤ x0 >>> floorLog2 (x0 / FIXED_1) := by
        rw [Nat.shiftRight_eq_div_pow, Nat.le_div_iff_mul_le (by positivity)]
        rw [mul_comm]
        exact hclo
      have hfrac := lnFrac_le_log (floorLog2 (x0 / FIXED_1) * FIXED_1) hx1
      refine le_trans hfrac ?_
      have hx1pos : (0:ℝ) < ((x0 >>> floorLog2 (x0 / FIXED_1) : ℕ) : ℝ) / FIXED_1 := by
        apply div_pos _ hF1posR
        exact_mod_cast lt_of_lt_of_le FIXED_1_pos hx1
      have hx1le : ((x0 >>> floorLog2 (x0 / FIXED_1) : ℕ) : ℝ) / FIXED_1 ≤
          ((x0 : ℝ) / FIXED_1) / 2 ^ floorLog2 (x0 / FIXED_1) := by
        have hc : ((x0 / 2 ^ floorLog2 (x0 / FIXED_1) : ℕ) : ℝ) ≤
            (x0 : ℝ) / 2 ^ floorLog2 (x0 / FIXED_1) := by
          have h := Nat.cast_div_le (α := ℝ) (m := x0)
            (n := 2 ^ floorLog2 (x0 / FIXED_1))
          push_cast at h ⊢
          exact h
        calc ((x0 >>> floorLog2 (x0 / FIXED_1) : ℕ) : ℝ) / FIXED_1
            = ((x0 / 2 ^ floorLog2 (x0 / FIXED_1) : ℕ) : ℝ) / FIXED_1 := by
              rw [Nat.shiftRight_eq_div_pow]
        _ ≤ ((x0 : ℝ) / 2 ^ floorLog2 (x0 / FIXED_1)) / FIXED_1 := by gcongr
        _ = ((x0 : ℝ) / FIXED_1) / 2 ^ floorLog2 (x0 / FIXED_1) := by ring
      have hlogb1 := Real.logb_le_logb_of_le one_lt_two hx1pos hx1le
      have hlogb2 : Real.logb 2 (((x0 : ℝ) / FIXED_1) / 2 ^ floorLog2 (x0 / FIXED_1)) =
          Real.logb 2 ((x0 : ℝ) / FIXED_1) - (floorLog2 (x0 / FIXED_1) : ℝ) := by
        rw [Real.logb_div (ne_of_gt hx0pos) (by positivity), Real.logb_pow,
          Real.logb_self_eq_one one_lt_two]
        ring
      have hp := mul_le_mul_of_nonneg_left (hlogb1.trans hlogb2.le)
        (by positivity : (0:ℝ) ≤ 2 ^ 127)
      push_cast [cast_FIXED_1]
      push_cast [cast_FIXED_1] at hp ⊢
      linarith
    · rw [if_neg h2]
      simpa using lnFrac_le_log 0 h1
  rw [lnBody_eq]
  rw [show LN2_EXPONENT = 122 from rfl, Nat.shiftRight_eq_div_pow]
  have hM := ln2_mantissa_le
  have hMnn : (0:ℝ) ≤ ((LN2_MANTISSA : ℕ) : ℝ) := Nat.cast_nonneg _
  set A := (if FIXED_2 ≤ x0 then
      lnFrac (x0 >>> floorLog2 (x0 / FIXED_1)) (floorLog2 (x0 / FIXED_1) * FIXED_1)
    else lnFrac x0 0 : ℕ) with hAdef
  have hcast : ((A * LN2_MANTISSA / 2 ^ 122 : ℕ) : ℝ) ≤
      ((A : ℝ) * LN2_MANTISSA) / 2 ^ 122 := by
    have h := Nat.cast_div_le (α := ℝ) (m := A * LN2_MANTISSA) (n := 2 ^ 122)
    push_cast at h ⊢
    norm_num at h ⊢
    exact h
  refine le_trans hcast ?_
  have hprod : (A : ℝ) * LN2_MANTISSA ≤
      (2 ^ 127 * Real.logb 2 ((x0 : ℝ) / FIXED_1)) * (Real.log 2 * 2 ^ 122) :=
    mul_le_mul hAbound hM hMnn (by positivity)
  calc ((A : ℝ) * LN2_MANTISSA) / 2 ^ 122
      ≤ ((2 ^ 127 * Real.logb 2 ((x0 : ℝ) / FIXED_1)) * (Real.log 2 * 2 ^ 122)) / 2 ^ 122 := by
        gcongr
  _ = Real.log ((x0 : ℝ) / FIXED_1) * 2 ^ 127 := by
      rw [Real.logb]
      have hlog2 : Real.log 2 ≠ 0 := ne_of_gt (Real.log_pos one_lt_two)
      field_simp
      ring

lemma ln_le_log {n d v : ℕ} (hd : 0 < d) (hdn : d ≤ n) (h : ln n d = some v) :
    (v : ℝ) ≤ Real.log ((n : ℝ) / d) * 2 ^ 127 := by
  obtain ⟨hmax, hv⟩ := ln_some h
  have hx0 : FIXED_1 ≤ n * FIXED_1 / d := by
    rw [Nat.le_div_iff_mul_le hd]
    calc FIXED_1 * d = d * FIXED_1 := mul_comm _ _
    _ ≤ n * FIXED_1 := Nat.mul_le_mul_right _ hdn
  have hmain := lnBody_le_log hx0 (ln_ratio_bound hmax)
  rw [hv]
  refine le_trans hmain ?_
  have hF1posR : (0:ℝ) < ((FIXED_1 : ℕ) : ℝ) := by exact_mod_cast FIXED_1_pos
  have hdposR : (0:ℝ) < (d : ℝ) := by exact_mod_cast hd
  have hle : ((n * FIXED_1 / d : ℕ) : ℝ) / FIXED_1 ≤ (n : ℝ) / d := by
    have h1 : ((n * FIXED_1 / d : ℕ) : ℝ) ≤ (n : ℝ) * FIXED_1 / d := by
      have h := Nat.cast_div_le (α := ℝ) (m := n * FIXED_1) (n := d)
      push_cast at h ⊢
      exact h
    calc ((n * FIXED_1 / d : ℕ) : ℝ) / FIXED_1 ≤ ((n : ℝ) * FIXED_1 / d) / FIXED_1 := by
          gcongr
    _ = (n : ℝ) / d := by
          field_simp
          ring
  have hpos : (0:ℝ) < ((n * FIXED_1 / d : ℕ) : ℝ) / FIXED_1 := by
    apply div_pos _ hF1posR
    exact_mod_cast lt_of_lt_of_le FIXED_1_pos hx0
  have hlog := (Real.log_le_log_iff hpos (lt_of_lt_of_le hpos hle)).mpr hle
  gcongr

lemma fixedExpLoop_le_exp (x p : ℕ) : ∀ (m j xi acc : ℕ),
    (xi : ℝ) ≤ (x : ℝ) ^ (j + 1) / 2 ^ (p * j) →
    ((fixedExpLoop ((List.range' j m).map
        (fun k => fixedExpNorm / Nat.factorial (k + 2))) x p (xi, acc)).2 : ℝ) ≤
      (acc : ℝ) + ∑ k ∈ Finset.range m,
        (fixedExpNorm : ℝ) * (x : ℝ) ^ (j + k + 2) /
          (2 ^ (p * (j + k + 1)) * Nat.factorial (j + k + 2)) := by
  intro m
  induction m with
  | zero =>
    intro j xi acc _
    simp [fixedExpLoop]
  | succ m ih =>
    intro j xi acc hxi
    rw [show List.range' j (m + 1) = j :: List.range' (j + 1) m from rfl, List.map_cons]
    show ((fixedExpLoop _ x p ((xi * x) >>> p,
        acc + ((xi * x) >>> p) * (fixedExpNorm / Nat.factorial (j + 2)))).2 : ℝ) ≤ _
    have hxnn : (0:ℝ) ≤ (x : ℝ) := Nat.cast_nonneg x
    have hxi' : (((xi * x) >>> p : ℕ) : ℝ) ≤ (x : ℝ) ^ (j + 2) / 2 ^ (p * (j + 1)) := by
      rw [Nat.shiftRight_eq_div_pow]
      have hc : ((xi * x / 2 ^ p : ℕ) : ℝ) ≤ ((xi : ℝ) * x) / 2 ^ p := by
        have h := Nat.cast_div_le (α := ℝ) (m := xi * x) (n := 2 ^ p)
        push_cast at h ⊢
        exact h
      refine le_trans hc ?_
      have h2 : ((xi : ℝ) * x) / 2 ^ p ≤ ((x : ℝ) ^ (j + 1) / 2 ^ (p * j) * x) / 2 ^ p := by
        gcongr
      refine le_trans h2 (le_of_eq ?_)
      rw [show p * (j + 1) = p * j + p from by ring, pow_add, pow_succ]
      field_simp
      ring
    have hcf : ((fixedExpNorm / Nat.factorial (j + 2) : ℕ) : ℝ) ≤
        (fixedExpNorm : ℝ) / Nat.factorial (j + 2) := by
      have h := Nat.cast_div_le (α := ℝ) (m := fixedExpNorm) (n := Nat.factorial (j + 2))
      push_cast at h ⊢
      exact h
    have hterm : (((xi * x) >>> p : ℕ) : ℝ) * ((fixedExpNorm / Nat.factorial (j + 2) : ℕ) : ℝ) ≤
        (fixedExpNorm : ℝ) * (x : ℝ) ^ (j + 2) /
          (2 ^ (p * (j + 1)) * Nat.factorial (j + 2)) := by
      have hmul := mul_le_mul hxi' hcf (Nat.cast_nonneg _) (by positivity)
      refine le_trans hmul (le_of_eq ?_)
      have hf : (0:ℝ) < (Nat.factorial (j + 2) : ℝ) := by
        exact_mod_cast Nat.factorial_pos (j + 2)
      field_simp
      ring
    have hih := ih (j + 1) ((xi * x) >>> p)
      (acc + ((xi * x) >>> p) * (fixedExpNorm / Nat.factorial (j + 2))) hxi'
    refine le_trans hih ?_
    rw [Finset.sum_range_succ']
    have hsumeq : ∑ k ∈ Finset.range m,
        (fixedExpNorm : ℝ) * (x : ℝ) ^ (j + 1 + k + 2) /
          (2 ^ (p * (j + 1 + k + 1)) * Nat.factorial (j + 1 + k + 2)) =
        ∑ k ∈ Finset.range m,
        (fixedExpNorm : ℝ) * (x : ℝ) ^ (j + (k + 1) + 2) /
          (2 ^ (p * (j + (k + 1) + 1)) * Nat.factorial (j + (k + 1) + 2)) := by
      refine Finset.sum_congr rfl (fun k _ => ?_)
      rw [show j + 1 + k + 2 = j + (k + 1) + 2 from by ring,
        show j + 1 + k + 1 = j + (k + 1) + 1 from by ring]
    rw [hsumeq] at hih ⊢
    push_cast
    push_cast at hterm
    have : ((acc : ℝ) + ((xi * x) >>> p : ℕ) * ((fixedExpNorm / Nat.factorial (j + 2) : ℕ) : ℝ)) ≤
        (acc : ℝ) + (fixedExpNorm : ℝ) * (x : ℝ) ^ (j + 0 + 2) /
          (2 ^ (p * (j + 0 + 1)) * Nat.factorial (j + 0 + 2)) := by
      simp only [Nat.add_zero]
      linarith
    push_cast at this
    linarith

lemma fixedExpCoeffs_eq : fixedExpCoeffs = (List.range' 0 32).map
    (fun k => fixedExpNorm / Nat.factorial (k + 2)) := by decide

lemma fixedExp_le_exp (x p : ℕ) :
    ((fixedExp x p : ℕ) : ℝ) ≤ 2 ^ p * Real.exp ((x : ℝ) / 2 ^ p) := by
  have hloop := fixedExpLoop_le_exp x p 32 0 x 0 (by simp)
  rw [← fixedExpCoeffs_eq] at hloop
  unfold fixedExp
  rw [one_shiftLeft]
  have hNpos : (0:ℝ) < (fixedExpNorm : ℝ) := by norm_num [fixedExpNorm]
  have hdivle : (((fixedExpLoop fixedExpCoeffs x p (x, 0)).2 / fixedExpNorm : ℕ) : ℝ) ≤
      (((fixedExpLoop fixedExpCoeffs x p (x, 0)).2 : ℕ) : ℝ) / fixedExpNorm := by
    exact Nat.cast_div_le
  have hRle : (((fixedExpLoop fixedExpCoeffs x p (x, 0)).2 : ℕ) : ℝ) / fixedExpNorm ≤
      ∑ k ∈ Finset.range 32, (x : ℝ) ^ (k + 2) /
        (2 ^ (p * (k + 1)) * Nat.factorial (k + 2)) := by
    rw [div_le_iff₀ hNpos]
    have hloop2 : (((fixedExpLoop fixedExpCoeffs x p (x, 0)).2 : ℕ) : ℝ) ≤
        ∑ k ∈ Finset.range 32, (fixedExpNorm : ℝ) * (x : ℝ) ^ (k + 2) /
          (2 ^ (p * (k + 1)) * Nat.factorial (k + 2)) := by
      simpa using hloop
    refine le_trans hloop2 (le_of_eq ?_)
    rw [Finset.sum_mul]
    refine Finset.sum_congr rfl (fun k _ => ?_)
    ring
  have htnn : (0:ℝ) ≤ (x : ℝ) / 2 ^ p := by positivity
  have hexp := Real.sum_le_exp_of_nonneg htnn 34
  have h2ppos : (0:ℝ) < (2:ℝ) ^ p := by positivity
  have hpeel : (2:ℝ) ^ p * ∑ j ∈ Finset.range 34, ((x : ℝ) / 2 ^ p) ^ j / Nat.factorial j =
      2 ^ p + (x : ℝ) + ∑ k ∈ Finset.range 32, (x : ℝ) ^ (k + 2) /
        (2 ^ (p * (k + 1)) * Nat.factorial (k + 2)) := by
    rw [show (34:ℕ) = 33 + 1 from rfl, Finset.sum_range_succ',
      show (33:ℕ) = 32 + 1 from rfl, Finset.sum_range_succ']
    have hterm : ∀ k, ((x : ℝ) / 2 ^ p) ^ (k + 1 + 1) / (Nat.factorial (k + 1 + 1) : ℝ) =
        (x : ℝ) ^ (k + 2) / (2 ^ (p * (k + 1)) * Nat.factorial (k + 2)) / 2 ^ p := by
      intro k
      have hf : (0:ℝ) < (Nat.factorial (k + 2) : ℝ) := by
        exact_mod_cast Nat.factorial_pos (k + 2)
      rw [div_pow, show k + 1 + 1 = k + 2 from rfl, ← pow_mul]
      rw [show p * (k + 2) = p * (k + 1) + p from by ring, pow_add]
      rw [div_div, div_div]
      congr 1
      ring
    rw [Finset.sum_congr rfl (fun k _ => hterm k)]
    rw [← Finset.sum_div]
    have h00 : ((x : ℝ) / 2 ^ p) ^ (0 + 1) / (Nat.factorial (0 + 1) : ℝ) = (x : ℝ) / 2 ^ p := by
      norm_num [Nat.factorial]
    have h01 : ((x : ℝ) / 2 ^ p) ^ 0 / (Nat.factorial 0 : ℝ) = 1 := by
      norm_num [Nat.factorial]
    rw [h00, h01]
    field_simp
    ring
  push_cast
  have hfin : (((fixedExpLoop fixedExpCoeffs x p (x, 0)).2 / fixedExpNorm : ℕ) : ℝ) +
      (x : ℝ) + 2 ^ p ≤ 2 ^ p * ∑ j ∈ Finset.range 34,
        ((x : ℝ) / 2 ^ p) ^ j / Nat.factorial j := by
    rw [hpeel]
    have := le_trans hdivle hRle
    linarith
  exact le_trans hfin (mul_le_mul_of_nonneg_left hexp (le_of_lt h2ppos))

lemma findPosition_range {x k : ℕ} (h : findPositionInMaxExpArray x = some k) :
    MIN_PRECISION ≤ k ∧ k ≤ MAX_PRECISION := by
  have hspec := findPosLoop_spec 95 MIN_PRECISION MAX_PRECISION x
    (by norm_num [MIN_PRECISION]) (by norm_num [MIN_PRECISION, MAX_PRECISION])
    (by norm_num [MAX_PRECISION]) (by norm_num [MIN_PRECISION, MAX_PRECISION])
    (Or.inr rfl) (Or.inr rfl)
  obtain ⟨h32, hsucc, h127, _, _⟩ := hspec
  unfold findPositionInMaxExpArray at h
  simp only [MIN_PRECISION, MAX_PRECISION] at *
  split at h
  · obtain rfl := Option.some_inj.mp h
    omega
  · split at h
    · obtain rfl := Option.some_inj.mp h
      omega
    · exact absurd h (by simp)

lemma power_le_rpow {bn bd en ed res p : ℕ} (hbd : 0 < bd) (hbdn : bd ≤ bn)
    (hed : 0 < ed) (h : power bn bd en ed = some (res, p)) :
    (res : ℝ) ≤ 2 ^ p * ((bn : ℝ) / bd) ^ ((en : ℝ) / ed) := by
  obtain ⟨l, hl, hfp, hres⟩ := power_inv h
  obtain ⟨hp32, hp127⟩ := findPosition_range hfp
  have hln := ln_le_log hbd hbdn hl
  have hbdposR : (0:ℝ) < (bd : ℝ) := by exact_mod_cast hbd
  have hedposR : (0:ℝ) < (ed : ℝ) := by exact_mod_cast hed
  have hbnposR : (0:ℝ) < (bn : ℝ) := by exact_mod_cast lt_of_lt_of_le hbd hbdn
  have hratpos : (0:ℝ) < (bn : ℝ) / bd := div_pos hbnposR hbdposR
  have hlognn : (0:ℝ) ≤ Real.log ((bn : ℝ) / bd) := by
    apply Real.log_nonneg
    rw [le_div_iff₀ hbdposR, one_mul]
    exact_mod_cast hbdn
  have hpow127 : (2:ℝ) ^ (MAX_PRECISION - p) * 2 ^ p = 2 ^ 127 := by
    rw [← pow_add]
    congr 1
    simp only [MAX_PRECISION] at *
    omega
  have h1 : ((((l * en / ed) >>> (MAX_PRECISION - p)) : ℕ) : ℝ) ≤
      ((l * en / ed : ℕ) : ℝ) / 2 ^ (MAX_PRECISION - p) := by
    rw [Nat.shiftRight_eq_div_pow]
    have hc := Nat.cast_div_le (α := ℝ) (m := l * en / ed) (n := 2 ^ (MAX_PRECISION - p))
    push_cast at hc ⊢
    exact hc
  have h2 : ((l * en / ed : ℕ) : ℝ) ≤ (l : ℝ) * en / ed := by
    have hc := Nat.cast_div_le (α := ℝ) (m := l * en) (n := ed)
    push_cast at hc ⊢
    exact hc
  have h3 : (l : ℝ) * en ≤ Real.log ((bn : ℝ) / bd) * 2 ^ 127 * en :=
    mul_le_mul_of_nonneg_right hln (Nat.cast_nonneg en)
  have hexparg : ((((l * en / ed) >>> (MAX_PRECISION - p)) : ℕ) : ℝ) / 2 ^ p ≤
      Real.log ((bn : ℝ) / bd) * ((en : ℝ) / ed) := by
    have hs : (0:ℝ) < (2:ℝ) ^ (MAX_PRECISION - p) := by positivity
    have hps : (0:ℝ) < (2:ℝ) ^ p := by positivity
    have hTne : ((2:ℝ) ^ (MAX_PRECISION - p)) ≠ 0 := ne_of_gt hs
    have hDne : ((ed : ℕ) : ℝ) ≠ 0 := ne_of_gt hedposR
    have k1 : ((((l * en / ed) >>> (MAX_PRECISION - p)) : ℕ) : ℝ) ≤
        (l : ℝ) * en / ed / 2 ^ (MAX_PRECISION - p) := by
      refine le_trans h1 ?_
      gcongr
    have k3 : ((((l * en / ed) >>> (MAX_PRECISION - p)) : ℕ) : ℝ) ≤
        Real.log ((bn : ℝ) / bd) * 2 ^ 127 * en / ed / 2 ^ (MAX_PRECISION - p) := by
      refine le_trans k1 ?_
      gcongr
    have k4 : Real.log ((bn : ℝ) / bd) * 2 ^ 127 * en / ed / 2 ^ (MAX_PRECISION - p) =
        Real.log ((bn : ℝ) / bd) * ((en : ℝ) / ed) * 2 ^ p := by
      rw [← hpow127]
      field_simp
      ring
    rw [div_le_iff₀ hps]
    rw [k4] at k3
    exact k3
  rw [hres]
  calc ((fixedExp ((l * en / ed) >>> (MAX_PRECISION - p)) p : ℕ) : ℝ)
      ≤ 2 ^ p * Real.exp (((((l * en / ed) >>> (MAX_PRECISION - p)) : ℕ) : ℝ) / 2 ^ p) :=
        fixedExp_le_exp _ p
  _ ≤ 2 ^ p * Real.exp (Real.log ((bn : ℝ) / bd) * ((en : ℝ) / ed)) := by
      have := Real.exp_le_exp.mpr hexparg
      exact mul_le_mul_of_nonneg_left this (by positivity)
  _ = 2 ^ p * ((bn : ℝ) / bd) ^ ((en : ℝ) / ed) := by
      rw [Real.rpow_def_of_pos hratpos]

/-- C3 (amended): whenever `power` succeeds on a base ratio of at least one
with a positive exponent denominator, the reported precision lies in
`[32, 127]` and the result never exceeds the true real value
`(baseN/baseD)^(expN/expD) * 2^precision`; the documented `2^-30`
relative-error bound does not hold in general. -/
theorem C3_power_bounds (bn bd en ed res p : ℕ) (hbd : 1 ≤ bd) (hbdn : bd ≤ bn)
    (hed : 0 < ed) (h : power bn bd en ed = some (res, p)) :
    MIN_PRECISION ≤ p ∧ p ≤ MAX_PRECISION ∧
    (res : ℝ) ≤ 2 ^ p * ((bn : ℝ) / bd) ^ ((en : ℝ) / ed) := by
  obtain ⟨l, hl, hfp, _⟩ := power_inv h
  obtain ⟨h1, h2⟩ := findPosition_range hfp
  exact ⟨h1, h2, power_le_rpow hbd hbdn hed h⟩

set_option maxRecDepth 400000 in
/-- Witness for C3 (amended) at a small concrete input. -/
theorem C3_power_bounds_witness :
    MIN_PRECISION ≤ 127 ∧ 127 ≤ MAX_PRECISION ∧
    ((208379541855705147060497221923602346544 : ℕ) : ℝ) ≤
      2 ^ 127 * (((3 : ℕ) : ℝ) / ((2 : ℕ) : ℝ)) ^ (((500000 : ℕ) : ℝ) / ((1000000 : ℕ) : ℝ)) :=
  C3_power_bounds 3 2 500000 1000000 208379541855705147060497221923602346544 127
    (by norm_num) (by norm_num) (by norm_num) (by decide)

set_option maxRecDepth 2000000 in
/-- C3 counterexample: at `baseN/baseD ≈ 2.76e32` with exponent
`754602/1000000` (inside the valid purchase-path domain), `power` selects
precision 32 but its result is more than a factor of two below the true
value, so the relative error is about `0.9995`, far beyond `2^-30`. -/
theorem C3_counterexample :
    power 527875251603844433662082879855873742373 1911254 754602 1000000 =
      some (6901491931964230404343365415628, 32) ∧
    (1 : ℕ) ≤ 1911254 ∧
    (1911254 : ℕ) ≤ 527875251603844433662082879855873742373 ∧
    (527875251603844433662082879855873742373 : ℕ) ≤ MAX_NUM ∧
    (754602 : ℕ) ≤ 1000000 ∧
    ¬ (|((6901491931964230404343365415628 : ℕ) : ℝ) -
          2 ^ 32 * (((527875251603844433662082879855873742373 : ℕ) : ℝ) /
            ((1911254 : ℕ) : ℝ)) ^ (((754602 : ℕ) : ℝ) / ((1000000 : ℕ) : ℝ))| <
        2 ^ 32 * (((527875251603844433662082879855873742373 : ℕ) : ℝ) /
          ((1911254 : ℕ) : ℝ)) ^ (((754602 : ℕ) : ℝ) / ((1000000 : ℕ) : ℝ)) / 2 ^ 30) := by
  refine ⟨by decide, by norm_num, by norm_num, by norm_num [MAX_NUM], by norm_num, ?_⟩
  intro habs
  have hbdposR : (0:ℝ) < ((1911254 : ℕ) : ℝ) := by norm_num
  have hbnposR : (0:ℝ) < ((527875251603844433662082879855873742373 : ℕ) : ℝ) := by norm_num
  have hratpos : (0:ℝ) < ((527875251603844433662082879855873742373 : ℕ) : ℝ) /
      ((1911254 : ℕ) : ℝ) := div_pos hbnposR hbdposR
  have hl : ln 527875251603844433662082879855873742373 1911254 =
      some 12709317259811069333586655858607822823691 := by decide
  have hln := ln_le_log (by norm_num : 0 < 1911254)
    (by norm_num : 1911254 ≤ 527875251603844433662082879855873742373) hl
  have hlv : (9590476222887952541263157684217180318402 : ℝ) ≤
      (12709317259811069333586655858607822823691 : ℝ) * 754602 / 1000000 := by
    rw [le_div_iff₀ (by norm_num : (0:ℝ) < 1000000)]
    norm_num
  have hy : (9590476222887952541263157684217180318402 : ℝ) / 2 ^ 127 ≤
      Real.log (((527875251603844433662082879855873742373 : ℕ) : ℝ) / ((1911254 : ℕ) : ℝ)) *
        (((754602 : ℕ) : ℝ) / ((1000000 : ℕ) : ℝ)) := by
    have h2 : (12709317259811069333586655858607822823691 : ℝ) ≤
        Real.log (((527875251603844433662082879855873742373 : ℕ) : ℝ) /
          ((1911254 : ℕ) : ℝ)) * 2 ^ 127 := by
      exact_mod_cast hln
    rw [div_le_iff₀ (by positivity : (0:ℝ) < (2:ℝ) ^ 127)]
    have h3 : (12709317259811069333586655858607822823691 : ℝ) * 754602 / 1000000 ≤
        Real.log (((527875251603844433662082879855873742373 : ℕ) : ℝ) /
          ((1911254 : ℕ) : ℝ)) * 2 ^ 127 * 754602 / 1000000 := by
      gcongr
    have h4 : Real.log (((527875251603844433662082879855873742373 : ℕ) : ℝ) /
        ((1911254 : ℕ) : ℝ)) * 2 ^ 127 * 754602 / 1000000 =
        Real.log (((527875251603844433662082879855873742373 : ℕ) : ℝ) /
          ((1911254 : ℕ) : ℝ)) * (((754602 : ℕ) : ℝ) / ((1000000 : ℕ) : ℝ)) * 2 ^ 127 := by
      push_cast
      ring
    calc (9590476222887952541263157684217180318402 : ℝ)
        ≤ (12709317259811069333586655858607822823691 : ℝ) * 754602 / 1000000 := hlv
    _ ≤ Real.log (((527875251603844433662082879855873742373 : ℕ) : ℝ) /
          ((1911254 : ℕ) : ℝ)) * 2 ^ 127 * 754602 / 1000000 := h3
    _ = _ := h4
  have hexplow : ((512 * 2 ^ 127 + 9590476222887952541263157684217180318402 : ℝ) /
      (512 * 2 ^ 127)) ^ (512 : ℕ) ≤
      Real.exp ((9590476222887952541263157684217180318402 : ℝ) / 2 ^ 127) := by
    have hbase : ((512 * 2 ^ 127 + 9590476222887952541263157684217180318402 : ℝ) /
        (512 * 2 ^ 127)) =
        1 + (9590476222887952541263157684217180318402 : ℝ) / 2 ^ 127 / 512 := by
      field_simp
      ring
    have h1 := Real.add_one_le_exp
      ((9590476222887952541263157684217180318402 : ℝ) / 2 ^ 127 / 512)
    have hynn : (0:ℝ) ≤ (9590476222887952541263157684217180318402 : ℝ) / 2 ^ 127 / 512 := by
      positivity
    have hpow : (1 + (9590476222887952541263157684217180318402 : ℝ) / 2 ^ 127 / 512) ^
        (512 : ℕ) ≤
        (Real.exp ((9590476222887952541263157684217180318402 : ℝ) / 2 ^ 127 / 512)) ^
          (512 : ℕ) := by
      apply pow_le_pow_left₀ (by linarith)
      linarith
    have hexp512 : (Real.exp ((9590476222887952541263157684217180318402 : ℝ) /
        2 ^ 127 / 512)) ^ (512 : ℕ) =
        Real.exp ((9590476222887952541263157684217180318402 : ℝ) / 2 ^ 127) := by
      rw [← Real.exp_nat_mul]
      congr 1
      push_cast
      rw [mul_comm, div_mul_cancel₀]
      norm_num
    rw [hbase]
    rw [hexp512] at hpow
    exact hpow
  have hnat : 2 * 6901491931964230404343365415628 * (512 * 2 ^ 127) ^ 512 ≤
      2 ^ 32 * (512 * 2 ^ 127 + 9590476222887952541263157684217180318402) ^ 512 := by
    decide
  have hV2 : 2 * ((6901491931964230404343365415628 : ℕ) : ℝ) ≤
      2 ^ 32 * (((527875251603844433662082879855873742373 : ℕ) : ℝ) /
        ((1911254 : ℕ) : ℝ)) ^ (((754602 : ℕ) : ℝ) / ((1000000 : ℕ) : ℝ)) := by
    have hppos : (0:ℝ) < ((512 * 2 ^ 127 : ℕ) : ℝ) ^ (512 : ℕ) := by positivity
    have hcast : (2 : ℝ) * 6901491931964230404343365415628 * ((512 * 2 ^ 127 : ℕ) : ℝ) ^ (512 : ℕ) ≤
        2 ^ 32 * ((512 * 2 ^ 127 + 9590476222887952541263157684217180318402 : ℕ) : ℝ) ^
          (512 : ℕ) := by
      exact_mod_cast hnat
    have hdiv : (2 : ℝ) * 6901491931964230404343365415628 ≤
        2 ^ 32 * (((512 * 2 ^ 127 + 9590476222887952541263157684217180318402 : ℕ) : ℝ) /
          ((512 * 2 ^ 127 : ℕ) : ℝ)) ^ (512 : ℕ) := by
      rw [div_pow, ← mul_div_assoc, le_div_iff₀ hppos]
      exact hcast
    have hcc : (((512 * 2 ^ 127 + 9590476222887952541263157684217180318402 : ℕ) : ℝ) /
        ((512 * 2 ^ 127 : ℕ) : ℝ)) =
        ((512 * 2 ^ 127 + 9590476222887952541263157684217180318402 : ℝ) / (512 * 2 ^ 127)) := by
      push_cast
      norm_num
    rw [hcc] at hdiv
    have hrpoweq : (((527875251603844433662082879855873742373 : ℕ) : ℝ) /
        ((1911254 : ℕ) : ℝ)) ^ (((754602 : ℕ) : ℝ) / ((1000000 : ℕ) : ℝ)) =
        Real.exp (Real.log (((527875251603844433662082879855873742373 : ℕ) : ℝ) /
          ((1911254 : ℕ) : ℝ)) * (((754602 : ℕ) : ℝ) / ((1000000 : ℕ) : ℝ))) :=
      Real.rpow_def_of_pos hratpos _
    have hexpmono := Real.exp_le_exp.mpr hy
    calc (2 : ℝ) * ((6901491931964230404343365415628 : ℕ) : ℝ)
        = (2 : ℝ) * 6901491931964230404343365415628 := by push_cast; ring
    _ ≤ 2 ^ 32 * ((512 * 2 ^ 127 + 9590476222887952541263157684217180318402 : ℝ) /
          (512 * 2 ^ 127)) ^ (512 : ℕ) := hdiv
    _ ≤ 2 ^ 32 * Real.exp ((9590476222887952541263157684217180318402 : ℝ) / 2 ^ 127) := by
        exact mul_le_mul_of_nonneg_left hexplow (by positivity)
    _ ≤ 2 ^ 32 * Real.exp (Real.log (((527875251603844433662082879855873742373 : ℕ) : ℝ) /
          ((1911254 : ℕ) : ℝ)) * (((754602 : ℕ) : ℝ) / ((1000000 : ℕ) : ℝ))) := by
        exact mul_le_mul_of_nonneg_left hexpmono (by positivity)
    _ = 2 ^ 32 * (((527875251603844433662082879855873742373 : ℕ) : ℝ) /
          ((1911254 : ℕ) : ℝ)) ^ (((754602 : ℕ) : ℝ) / ((1000000 : ℕ) : ℝ)) := by
        rw [hrpoweq]
  have hVpos : (0:ℝ) < 2 ^ 32 * (((527875251603844433662082879855873742373 : ℕ) : ℝ) /
      ((1911254 : ℕ) : ℝ)) ^ (((754602 : ℕ) : ℝ) / ((1000000 : ℕ) : ℝ)) := by
    have := Real.rpow_pos_of_pos hratpos
      (((754602 : ℕ) : ℝ) / ((1000000 : ℕ) : ℝ))
    positivity
  have hle1 : 2 ^ 32 * (((527875251603844433662082879855873742373 : ℕ) : ℝ) /
        ((1911254 : ℕ) : ℝ)) ^ (((754602 : ℕ) : ℝ) / ((1000000 : ℕ) : ℝ)) -
        ((6901491931964230404343365415628 : ℕ) : ℝ) ≤
      |((6901491931964230404343365415628 : ℕ) : ℝ) -
        2 ^ 32 * (((527875251603844433662082879855873742373 : ℕ) : ℝ) /
          ((1911254 : ℕ) : ℝ)) ^ (((754602 : ℕ) : ℝ) / ((1000000 : ℕ) : ℝ))| := by
    rw [abs_sub_comm]
    exact le_abs_self _
  linarith

set_option maxRecDepth 400000 in
/-- C7 counterexample: on numerator 2, denominator 1, `ln` does not return
the exact floor of `ln(2) * 2^127`; it returns a strictly smaller value
(`32 * LN2_MANTISSA`, which underestimates the floor by 23). -/
theorem C7_counterexample :
    ln 2 1 = some 117932881612756647068972071382077242176 ∧
    (117932881612756647068972071382077242176 : ℤ) ≠
      ⌊Real.log ((2 : ℝ) / 1) * 2 ^ 127⌋ := by
  constructor
  · decide
  · intro hcon
    have hge := log_two_ge_counterexample
    rw [show ((2 : ℝ) / 1) = 2 by norm_num] at hcon
    have hfl : (117932881612756647068972071382077242176 + 1 : ℤ) ≤
        ⌊Real.log 2 * 2 ^ 127⌋ := by
      rw [Int.le_floor]
      push_cast
      exact_mod_cast hge
    omega

/-- C7 (amended): for every `1 ≤ d ≤ n ≤ MAX_NUM`, `ln` returns a
nonnegative value that never exceeds `floor(ln(n/d) * 2^127)` (the
successive truncations make it a one-sided underestimate; it is not always
equal to the floor). -/
theorem C7_ln_underestimate (n d v : ℕ) (hd : 1 ≤ d) (hdn : d ≤ n)
    (hmax : n ≤ MAX_NUM) (h : ln n d = some v) :
    0 ≤ (v : ℤ) ∧ (v : ℤ) ≤ ⌊Real.log ((n : ℝ) / d) * 2 ^ 127⌋ := by
  refine ⟨Int.natCast_nonneg v, ?_⟩
  rw [Int.le_floor]
  push_cast
  exact ln_le_log hd hdn h

set_option maxRecDepth 400000 in
/-- Witness for C7 (amended) at numerator 3, denominator 2. -/
theorem C7_ln_underestimate_witness :
    0 ≤ ((68986313345450186732775020948158169845 : ℕ) : ℤ) ∧
    ((68986313345450186732775020948158169845 : ℕ) : ℤ) ≤
      ⌊Real.log (((3 : ℕ) : ℝ) / ((2 : ℕ) : ℝ)) * 2 ^ 127⌋ :=
  C7_ln_underestimate 3 2 68986313345450186732775020948158169845
    (by norm_num) (by norm_num) (by norm_num [MAX_NUM]) (by decide)

set_option maxRecDepth 400000 in
/-- C2 counterexample: at a fixed valid pool state, increasing the deposit
by one unit makes the purchase return drop (the internal precision falls
from 33 to 32 across a `maxExpArray` boundary), so the function is not
non-decreasing in the amount argument. -/
theorem C2_counterexample :
    (367453920243574985248932906292354380700 : ℕ) ≤
      367453920243574985248932906292354380701 ∧
    calculatePurchaseReturn 1000000 100000 700000
        367453920243574985248932906292354380700 =
      some (436461617247075124510113181 : ℤ) ∧
    calculatePurchaseReturn 1000000 100000 700000
        367453920243574985248932906292354380701 =
      some (436461617247057473162668312 : ℤ) ∧
    ¬ ((436461617247075124510113181 : ℤ) ≤ 436461617247057473162668312) :=
  ⟨by norm_num, by decide, by decide, by decide⟩

/-- C2 (amended): for fixed valid `s, r, c`, both return functions are
non-decreasing in their amount argument over all amount pairs for which
both calls succeed and the two calls select the same internal precision
(the zero-amount, whole-supply and 100%-ratio shortcut cases are covered
unconditionally); across a precision boundary the return can decrease. -/
theorem C2_monotone_samePrecision :
    (∀ s r c d1 d2 v1 v2, d1 ≤ d2 →
      calculatePurchaseReturn s r c d1 = some v1 →
      calculatePurchaseReturn s r c d2 = some v2 →
      (d1 = 0 ∨ c = MAX_CRR ∨ purchasePrecision r c d1 = purchasePrecision r c d2) →
      v1 ≤ v2) ∧
    (∀ s r c a1 a2 v1 v2, a1 ≤ a2 →
      calculateSaleReturn s r c a1 = some v1 →
      calculateSaleReturn s r c a2 = some v2 →
      (a1 = 0 ∨ a2 = s ∨ c = MAX_CRR ∨ salePrecision s c a1 = salePrecision s c a2) →
      v1 ≤ v2) := by
  constructor
  · intro s r c d1 d2 v1 v2 hd h1 h2 hsame
    by_cases hd0 : d1 = 0
    · subst hd0
      rw [purchase_zero_value h1]
      exact purchase_nonneg h2
    · have hd20 : d2 ≠ 0 := by omega
      by_cases hcrr : c = MAX_CRR
      · rcases (purchase_inv h1).2 with ⟨h, _⟩ | ⟨_, m1, hm1, hv1⟩ | ⟨_, hc, _⟩
        · exact absurd h hd0
        swap
        · exact absurd hcrr hc
        rcases (purchase_inv h2).2 with ⟨h, _⟩ | ⟨_, m2, hm2, hv2⟩ | ⟨_, hc, _⟩
        · exact absurd h hd20
        swap
        · exact absurd hcrr hc
        obtain ⟨he1, _⟩ := safeMul_some hm1
        obtain ⟨he2, _⟩ := safeMul_some hm2
        rw [hv1, hv2, he1, he2]
        have : s * d1 / r ≤ s * d2 / r :=
          Nat.div_le_div_right (Nat.mul_le_mul_left _ hd)
        exact_mod_cast this
      · rcases hsame with h | h | hprec
        · exact absurd h hd0
        · exact absurd h hcrr
        rcases (purchase_inv h1).2 with ⟨h, _⟩ | ⟨hc, _⟩ |
          ⟨_, _, bn1, res1, p1, hbn1, hp1, hlt1, hv1⟩
        · exact absurd h hd0
        · exact absurd hc hcrr
        rcases (purchase_inv h2).2 with ⟨h, _⟩ | ⟨hc, _⟩ |
          ⟨_, _, bn2, res2, p2, hbn2, hp2, hlt2, hv2⟩
        · exact absurd h hd20
        · exact absurd hc hcrr
        have hpp1 := purchasePrecision_of_power hbn1 hp1
        have hpp2 := purchasePrecision_of_power hbn2 hp2
        rw [hpp1, hpp2] at hprec
        obtain rfl : p1 = p2 := Option.some_inj.mp hprec
        obtain ⟨l1, hl1, _, hres1⟩ := power_inv hp1
        obtain ⟨l2, hl2, _, hres2⟩ := power_inv hp2
        obtain ⟨hbe1, _⟩ := safeAdd_some hbn1
        obtain ⟨hbe2, _⟩ := safeAdd_some hbn2
        have hll : l1 ≤ l2 := by
          refine ln_mono_num ?_ hl1 hl2
          omega
        have hlnval : l1 * c / MAX_CRR ≤ l2 * c / MAX_CRR :=
          Nat.div_le_div_right (Nat.mul_le_mul_right _ hll)
        have hresle : res1 ≤ res2 := by
          rw [hres1, hres2]
          exact fixedExp_mono _ (shiftRight_le_shiftRight hlnval _)
        have hsh : (s * res1) >>> p1 ≤ (s * res2) >>> p1 :=
          shiftRight_le_shiftRight (Nat.mul_le_mul_left _ hresle) _
        rw [hv1, hv2]
        omega
  · intro s r c a1 a2 v1 v2 ha h1 h2 hsame
    by_cases ha0 : a1 = 0
    · subst ha0
      rw [sale_zero_value h1]
      exact sale_nonneg h2
    · by_cases ha2s : a2 = s
      · have hv2r : v2 = (r : ℤ) := by
          obtain ⟨⟨hs, _, _, _, _⟩, hcases⟩ := sale_inv h2
          rcases hcases with ⟨h, _⟩ | ⟨_, _, hv⟩ | ⟨_, hne, _, _⟩ | ⟨_, hne, _, _⟩
          · exfalso; omega
          · exact hv
          · exact absurd ha2s hne
          · exact absurd ha2s hne
        rw [hv2r]
        exact sale_le_reserve h1
      · have ha20 : a2 ≠ 0 := by omega
        have has2 : a2 ≤ s := (sale_inv h2).1.2.2.2.2
        have ha1s : a1 ≠ s := fun hcon => ha2s (by omega)
        have hs : 0 < s := (sale_inv h1).1.1
        by_cases hcrr : c = MAX_CRR
        · rcases (sale_inv h1).2 with ⟨h, _⟩ | ⟨_, h, _⟩ | ⟨_, _, _, m1, hm1, hv1⟩ |
            ⟨_, _, hc, _⟩
          · exact absurd h ha0
          · exact absurd h ha1s
          swap
          · exact absurd hcrr hc
          rcases (sale_inv h2).2 with ⟨h, _⟩ | ⟨_, h, _⟩ | ⟨_, _, _, m2, hm2, hv2⟩ |
            ⟨_, _, hc, _⟩
          · exact absurd h ha20
          · exact absurd h ha2s
          swap
          · exact absurd hcrr hc
          obtain ⟨he1, _⟩ := safeMul_some hm1
          obtain ⟨he2, _⟩ := safeMul_some hm2
          rw [hv1, hv2, he1, he2]
          have : r * a1 / s ≤ r * a2 / s :=
            Nat.div_le_div_right (Nat.mul_le_mul_left _ ha)
          exact_mod_cast this
        · rcases hsame with h | h | h | hprec
          · exact absurd h ha0
          · exact absurd h ha2s
          · exact absurd h hcrr
          rcases (sale_inv h1).2 with ⟨h, _⟩ | ⟨_, h, _⟩ | ⟨_, _, hc, _⟩ |
            ⟨_, _, _, res1, p1, hp1, hlt1, hv1⟩
          · exact absurd h ha0
          · exact absurd h ha1s
          · exact absurd hc hcrr
          rcases (sale_inv h2).2 with ⟨h, _⟩ | ⟨_, h, _⟩ | ⟨_, _, hc, _⟩ |
            ⟨_, _, _, res2, p2, hp2, hlt2, hv2⟩
          · exact absurd h ha20
          · exact absurd h ha2s
          · exact absurd hc hcrr
          have hpp1 := salePrecision_of_power hp1
          have hpp2 := salePrecision_of_power hp2
          rw [hpp1, hpp2] at hprec
          obtain rfl : p1 = p2 := Option.some_inj.mp hprec
          obtain ⟨l1, hl1, _, hres1⟩ := power_inv hp1
          obtain ⟨l2, hl2, _, hres2⟩ := power_inv hp2
          have hll : l1 ≤ l2 :=
            ln_anti_denom (Nat.sub_le_sub_left ha s) (by omega) hl1 hl2
          have hlnval : l1 * MAX_CRR / c ≤ l2 * MAX_CRR / c :=
            Nat.div_le_div_right (Nat.mul_le_mul_right _ hll)
          have hresle : res1 ≤ res2 := by
            rw [hres1, hres2]
            exact fixedExp_mono _ (shiftRight_le_shiftRight hlnval _)
          have hr1 : 2 ^ p1 ≤ res1 := power_some_lower hp1
          have hr2 : 2 ^ p1 ≤ res2 := power_some_lower hp2
          have hr1pos : 0 < res1 := lt_of_lt_of_le (by positivity) hr1
          have hr2pos : 0 < res2 := lt_of_lt_of_le (by positivity) hr2
          have hcross : (r * res1 - r * 2 ^ p1) * res2 ≤ (r * res2 - r * 2 ^ p1) * res1 := by
            calc (r * res1 - r * 2 ^ p1) * res2
                = r * res1 * res2 - r * 2 ^ p1 * res2 := Nat.sub_mul _ _ _
            _ ≤ r * res1 * res2 - r * 2 ^ p1 * res1 :=
                Nat.sub_le_sub_left (Nat.mul_le_mul_left _ hresle) _
            _ = r * res2 * res1 - r * 2 ^ p1 * res1 := by
                congr 1
                ring
            _ = (r * res2 - r * 2 ^ p1) * res1 := (Nat.sub_mul _ _ _).symm
          have hdiv : (r * res1 - r * 2 ^ p1) / res1 ≤ (r * res2 - r * 2 ^ p1) / res2 :=
            div_le_div_cross hcross hr1pos hr2pos
          rw [hv1, hv2, sale_general_value hr1, sale_general_value hr2]
          exact_mod_cast hdiv

set_option maxRecDepth 400000 in
/-- Witness for C2 (amended): the theorem applied at fixed amounts (equal
deposits and equal sale amounts, hence equal precisions). -/
theorem C2_monotone_samePrecision_witness : (1 : ℤ) ≤ 1 ∧ (4 : ℤ) ≤ 4 :=
  ⟨C2_monotone_samePrecision.1 2 3 500000 5 5 1 1 (le_refl 5) (by decide) (by decide)
      (Or.inr (Or.inr rfl)),
   C2_monotone_samePrecision.2 7 5 300000 4 4 4 4 (le_refl 4) (by decide) (by decide)
      (Or.inr (Or.inr (Or.inr rfl)))⟩

/-- Witness for C5 (amended) at concrete inputs. -/
theorem C5_fullRatio_linear_witness :
    calculatePurchaseReturn 10 4 MAX_CRR 6 = some ((15 : ℕ) : ℤ) ∧
    calculateSaleReturn 10 4 MAX_CRR 6 = some ((2 : ℕ) : ℤ) := by
  constructor
  · have := C5_fullRatio_linear.1 10 4 6 (by norm_num) (by norm_num) (by norm_num)
    simpa using this
  · have := C5_fullRatio_linear.2.2.1 10 4 6 (by norm_num) (by norm_num) (by norm_num)
      (by norm_num)
    simpa using this

set_option maxRecDepth 100000 in
/-- Witness for C10: each conjunct applied at concrete inputs. -/
theorem C10_safety_witness :
    5 + 2 ^ 3 ≤ fixedExp 5 3 ∧ (0 : ℤ) ≤ 1 ∧ (0 : ℤ) ≤ 4 :=
  ⟨C10_safety.1 5 3,
   C10_safety.2.2.1 2 3 500000 5 1 (by decide),
   C10_safety.2.2.2 7 5 300000 4 4 (by decide)⟩

/-- Midpoint convexity of `x ^ m` on `[0, 2]`: the two values at `u` and
`2 - u` average to at least the value at `1`. -/
lemma convex_two_sub (u m : ℝ) (hu1 : 1 ≤ u) (hu2 : u ≤ 2) (hm : 1 ≤ m) :
    2 ≤ u ^ m + (2 - u) ^ m := by
  have h := (convexOn_rpow hm).2 (Set.mem_Ici.mpr (by linarith : (0:ℝ) ≤ u))
    (Set.mem_Ici.mpr (by linarith : (0:ℝ) ≤ 2 - u))
    (by norm_num : (0:ℝ) ≤ 1/2) (by norm_num : (0:ℝ) ≤ 1/2) (by norm_num)
  simp only [smul_eq_mul] at h
  have h1 : (1/2 : ℝ) * u + (1/2) * (2 - u) = 1 := by ring
  rw [h1, Real.one_rpow] at h
  linarith

/-- The key round-trip inequality: if `τ ≥ 2 - ρ^κ` with `ρ ∈ [1, 2)`,
`κ ∈ (0, 1]` and `m = 1/κ ≥ 1`, then `τ^m ≥ 2 - ρ`. -/
lemma core_ineq (ρ κ m τ : ℝ) (hρ1 : 1 ≤ ρ) (hρ2 : ρ < 2) (hκ0 : 0 < κ) (hκ1 : κ ≤ 1)
    (hm : 1 ≤ m) (hκm : κ * m = 1) (hτ : 2 - ρ ^ κ ≤ τ) :
    2 - ρ ≤ τ ^ m := by
  have hρ0 : (0:ℝ) ≤ ρ := by linarith
  have hu1 : 1 ≤ ρ ^ κ := by
    calc (1:ℝ) = 1 ^ κ := (Real.one_rpow κ).symm
    _ ≤ ρ ^ κ := Real.rpow_le_rpow (by norm_num) hρ1 (le_of_lt hκ0)
  have huρ : ρ ^ κ ≤ ρ := by
    calc ρ ^ κ ≤ ρ ^ (1:ℝ) := Real.rpow_le_rpow_of_exponent_le hρ1 hκ1
    _ = ρ := Real.rpow_one ρ
  have hu2 : ρ ^ κ ≤ 2 := by linarith
  have hconv : 2 ≤ (ρ ^ κ) ^ m + (2 - ρ ^ κ) ^ m := convex_two_sub _ m hu1 hu2 hm
  have hum : (ρ ^ κ) ^ m = ρ := by
    rw [← Real.rpow_mul hρ0, hκm, Real.rpow_one]
  have hmono : (2 - ρ ^ κ) ^ m ≤ τ ^ m :=
    Real.rpow_le_rpow (by linarith) hτ (by linarith)
  rw [hum] at hconv
  linarith

set_option maxRecDepth 4000 in
/-- C1: buying with deposit `d` and then immediately selling back the
returned token amount at the same pool state never yields more reserve
than `d` (rounding always favors the pool). -/
theorem C1_roundTrip (s r c d : ℕ) (t b : ℤ)
    (h1 : calculatePurchaseReturn s r c d = some t)
    (h2 : calculateSaleReturn s r c t.toNat = some b) :
    b ≤ (d : ℤ) := by
  obtain ⟨⟨hs, hr, hc, hcm⟩, hpcases⟩ := purchase_inv h1
  rcases hpcases with ⟨hd0, ht0⟩ | ⟨hcM, m0, hm0, htv⟩ |
    ⟨hd0, hcne, bn, res1, p1, hbn, hp1, hsm, htv⟩
  · rw [ht0] at h2
    have h2z : calculateSaleReturn s r c 0 = some b := by simpa using h2
    rw [sale_zero_value h2z]
    exact Int.natCast_nonneg d
  · obtain ⟨hm0eq, _⟩ := safeMul_some hm0
    rw [hm0eq] at htv
    have haT : t.toNat = s * d / r := by rw [htv]; exact Int.toNat_natCast _
    rw [haT] at h2
    rcases (sale_inv h2).2 with ⟨_, hb0⟩ | ⟨_, hAeq, hbr⟩ |
      ⟨_, _, _, m2, hm2, hbv⟩ | ⟨_, _, hcne2, _⟩
    · rw [hb0]; exact Int.natCast_nonneg d
    · have hrd : r ≤ d := by
        have hsr : s * r ≤ s * d := (Nat.le_div_iff_mul_le hr).mp (le_of_eq hAeq.symm)
        exact Nat.le_of_mul_le_mul_left hsr hs
      rw [hbr]
      exact_mod_cast hrd
    · obtain ⟨hm2eq, _⟩ := safeMul_some hm2
      rw [hm2eq] at hbv
      have hle : r * (s * d / r) ≤ s * d := by
        calc r * (s * d / r) = s * d / r * r := by ring
        _ ≤ s * d := Nat.div_mul_le_self _ _
      have hfin : r * (s * d / r) / s ≤ d := by
        calc r * (s * d / r) / s ≤ s * d / s := Nat.div_le_div_right hle
        _ = d := Nat.mul_div_cancel_left d hs
      rw [hbv]
      exact_mod_cast hfin
    · exact absurd hcM hcne2
  · obtain ⟨hbneq, _⟩ := safeAdd_some hbn
    subst hbneq
    have hres1 := power_some_lower hp1
    have hsT : s ≤ (s * res1) >>> p1 := shiftedProduct_ge hres1
    have htEq : t = (((s * res1) >>> p1 - s : ℕ) : ℤ) := by
      rw [htv, Nat.cast_sub hsT]
    have haT : t.toNat = (s * res1) >>> p1 - s := by
      rw [htEq]; exact Int.toNat_natCast _
    rw [haT] at h2
    by_cases hrdle : r ≤ d
    · refine le_trans (sale_le_reserve h2) ?_
      exact_mod_cast hrdle
    · push_neg at hrdle
      have hrposR : (0:ℝ) < (r:ℝ) := by exact_mod_cast hr
      have hsposR : (0:ℝ) < (s:ℝ) := by exact_mod_cast hs
      have hcposR : (0:ℝ) < (c:ℝ) := by exact_mod_cast hc
      have hMposR : (0:ℝ) < ((MAX_CRR : ℕ) : ℝ) := by norm_num [MAX_CRR]
      have hcmR : (c:ℝ) ≤ ((MAX_CRR : ℕ) : ℝ) := by exact_mod_cast hcm
      have hdrR : (d:ℝ) < (r:ℝ) := by exact_mod_cast hrdle
      have hdnnR : (0:ℝ) ≤ (d:ℝ) := Nat.cast_nonneg d
      have hρ1 : 1 ≤ ((d:ℝ) + r) / r := by
        rw [le_div_iff₀ hrposR, one_mul]
        linarith
      have hρ2 : ((d:ℝ) + r) / r < 2 := by
        rw [div_lt_iff₀ hrposR]
        linarith
      have hκ0 : (0:ℝ) < (c:ℝ) / ((MAX_CRR : ℕ) : ℝ) := div_pos hcposR hMposR
      have hκ1 : (c:ℝ) / ((MAX_CRR : ℕ) : ℝ) ≤ 1 := (div_le_one hMposR).mpr hcmR
      have hm1 : (1:ℝ) ≤ ((MAX_CRR : ℕ) : ℝ) / (c:ℝ) := (one_le_div hcposR).mpr hcmR
      have hκm : (c:ℝ) / ((MAX_CRR : ℕ) : ℝ) * (((MAX_CRR : ℕ) : ℝ) / (c:ℝ)) = 1 := by
        field_simp
      have hres1R := power_le_rpow hr (Nat.le_add_left r d) (by norm_num [MAX_CRR]) hp1
      push_cast at hres1R
      have hTub : (((s * res1) >>> p1 : ℕ) : ℝ) ≤ (s:ℝ) * res1 / 2 ^ p1 := by
        rw [Nat.shiftRight_eq_div_pow]
        have hcd := Nat.cast_div_le (α := ℝ) (m := s * res1) (n := 2 ^ p1)
        push_cast at hcd ⊢
        exact hcd
      have hA : (((s * res1) >>> p1 : ℕ) : ℝ) ≤
          (s:ℝ) * ((((d:ℝ) + r) / r) ^ ((c:ℝ) / ((MAX_CRR : ℕ) : ℝ))) := by
        refine le_trans hTub ?_
        rw [div_le_iff₀ (by positivity : (0:ℝ) < (2:ℝ) ^ p1)]
        calc (s:ℝ) * res1
            ≤ (s:ℝ) * (2 ^ p1 * (((d:ℝ) + r) / r) ^ ((c:ℝ) / ((MAX_CRR : ℕ) : ℝ))) :=
              mul_le_mul_of_nonneg_left hres1R (le_of_lt hsposR)
        _ = (s:ℝ) * ((((d:ℝ) + r) / r) ^ ((c:ℝ) / ((MAX_CRR : ℕ) : ℝ))) * 2 ^ p1 := by
              ring
      obtain ⟨⟨_, _, _, _, hAs⟩, hscases⟩ := sale_inv h2
      rcases hscases with ⟨_, hb0⟩ | ⟨_, hAeq, hbr⟩ | ⟨_, _, hcM2, _⟩ |
        ⟨ha0, hane, _, res2, p2, hp2, hrm, hbv⟩
      · rw [hb0]; exact Int.natCast_nonneg d
      · exfalso
        have hT2 : (s * res1) >>> p1 = 2 * s := by omega
        have huρ : (((d:ℝ) + r) / r) ^ ((c:ℝ) / ((MAX_CRR : ℕ) : ℝ)) ≤ ((d:ℝ) + r) / r := by
          calc (((d:ℝ) + r) / r) ^ ((c:ℝ) / ((MAX_CRR : ℕ) : ℝ))
              ≤ (((d:ℝ) + r) / r) ^ (1:ℝ) := Real.rpow_le_rpow_of_exponent_le hρ1 hκ1
          _ = ((d:ℝ) + r) / r := Real.rpow_one _
        have hu2' : (((d:ℝ) + r) / r) ^ ((c:ℝ) / ((MAX_CRR : ℕ) : ℝ)) < 2 := by linarith
        have hTcast : (((s * res1) >>> p1 : ℕ) : ℝ) = 2 * s := by
          rw [hT2]; push_cast; ring
        rw [hTcast] at hA
        have := mul_lt_mul_of_pos_left hu2' hsposR
        linarith
      · exact absurd hcM2 hcne
      · have hres2 := power_some_lower hp2
        have hres2posR : (0:ℝ) < (res2:ℝ) := by
          have hpos : (0:ℕ) < res2 :=
            lt_of_lt_of_le (Nat.pos_pow_of_pos p2 (by norm_num)) hres2
          exact_mod_cast hpos
        have hAlt : (s * res1) >>> p1 - s < s := lt_of_le_of_ne hAs hane
        have hsub_pos : 0 < s - ((s * res1) >>> p1 - s) := Nat.sub_pos_of_lt hAlt
        have hres2R := power_le_rpow hsub_pos (Nat.sub_le s _) hc hp2
        rw [Nat.cast_sub hAs] at hres2R
        have hAcast : (((s * res1) >>> p1 - s : ℕ) : ℝ) =
            (((s * res1) >>> p1 : ℕ) : ℝ) - (s:ℝ) := by
          rw [Nat.cast_sub hsT]
        have hAR : (((s * res1) >>> p1 - s : ℕ) : ℝ) + s ≤
            (s:ℝ) * ((((d:ℝ) + r) / r) ^ ((c:ℝ) / ((MAX_CRR : ℕ) : ℝ))) := by
          rw [hAcast]; linarith
        have hτ : 2 - (((d:ℝ) + r) / r) ^ ((c:ℝ) / ((MAX_CRR : ℕ) : ℝ)) ≤
            ((s:ℝ) - (((s * res1) >>> p1 - s : ℕ) : ℝ)) / s := by
          rw [le_div_iff₀ hsposR]
          linarith [hAR]
        have hτm := core_ineq (((d:ℝ) + r) / r) ((c:ℝ) / ((MAX_CRR : ℕ) : ℝ))
          (((MAX_CRR : ℕ) : ℝ) / (c:ℝ))
          (((s:ℝ) - (((s * res1) >>> p1 - s : ℕ) : ℝ)) / s)
          hρ1 hρ2 hκ0 hκ1 hm1 hκm hτ
        have hsapos : (0:ℝ) < (s:ℝ) - (((s * res1) >>> p1 - s : ℕ) : ℝ) := by
          have hc1 : (((s * res1) >>> p1 - s : ℕ) : ℝ) < (s:ℝ) := by exact_mod_cast hAlt
          linarith
        have hσpos : (0:ℝ) < (s:ℝ) / ((s:ℝ) - (((s * res1) >>> p1 - s : ℕ) : ℝ)) :=
          div_pos hsposR hsapos
        have hσm_pos : (0:ℝ) < ((s:ℝ) / ((s:ℝ) - (((s * res1) >>> p1 - s : ℕ) : ℝ))) ^
            (((MAX_CRR : ℕ) : ℝ) / (c:ℝ)) := Real.rpow_pos_of_pos hσpos _
        have hτm_inv : (((s:ℝ) - (((s * res1) >>> p1 - s : ℕ) : ℝ)) / s) ^
            (((MAX_CRR : ℕ) : ℝ) / (c:ℝ)) =
            (((s:ℝ) / ((s:ℝ) - (((s * res1) >>> p1 - s : ℕ) : ℝ))) ^
              (((MAX_CRR : ℕ) : ℝ) / (c:ℝ)))⁻¹ := by
          rw [show (((s:ℝ) - (((s * res1) >>> p1 - s : ℕ) : ℝ)) / s) =
              ((s:ℝ) / ((s:ℝ) - (((s * res1) >>> p1 - s : ℕ) : ℝ)))⁻¹ from
            (inv_div _ _).symm, Real.inv_rpow (le_of_lt hσpos)]
        have hbub : (((r * res2 - r * 2 ^ p2) / res2 : ℕ) : ℝ) ≤
            (r:ℝ) - (r:ℝ) * ((((s:ℝ) - (((s * res1) >>> p1 - s : ℕ) : ℝ)) / s) ^
              (((MAX_CRR : ℕ) : ℝ) / (c:ℝ))) := by
          have hle2 : r * 2 ^ p2 ≤ r * res2 := Nat.mul_le_mul_left r hres2
          have hstep1 : (((r * res2 - r * 2 ^ p2) / res2 : ℕ) : ℝ) ≤
              ((r:ℝ) * res2 - (r:ℝ) * 2 ^ p2) / (res2:ℝ) := by
            have hcd := Nat.cast_div_le (α := ℝ) (m := r * res2 - r * 2 ^ p2) (n := res2)
            rw [Nat.cast_sub hle2] at hcd
            push_cast at hcd ⊢
            exact hcd
          refine le_trans hstep1 ?_
          rw [div_le_iff₀ hres2posR, hτm_inv]
          have h5 : (r:ℝ) * (((s:ℝ) / ((s:ℝ) - (((s * res1) >>> p1 - s : ℕ) : ℝ))) ^
              (((MAX_CRR : ℕ) : ℝ) / (c:ℝ)))⁻¹ * res2 ≤
              (r:ℝ) * (((s:ℝ) / ((s:ℝ) - (((s * res1) >>> p1 - s : ℕ) : ℝ))) ^
                (((MAX_CRR : ℕ) : ℝ) / (c:ℝ)))⁻¹ *
              (2 ^ p2 * ((s:ℝ) / ((s:ℝ) - (((s * res1) >>> p1 - s : ℕ) : ℝ))) ^
                (((MAX_CRR : ℕ) : ℝ) / (c:ℝ))) :=
            mul_le_mul_of_nonneg_left hres2R (by positivity)
          have h6 : (r:ℝ) * (((s:ℝ) / ((s:ℝ) - (((s * res1) >>> p1 - s : ℕ) : ℝ))) ^
              (((MAX_CRR : ℕ) : ℝ) / (c:ℝ)))⁻¹ *
              (2 ^ p2 * ((s:ℝ) / ((s:ℝ) - (((s * res1) >>> p1 - s : ℕ) : ℝ))) ^
                (((MAX_CRR : ℕ) : ℝ) / (c:ℝ))) = (r:ℝ) * 2 ^ p2 := by
            have hXne : ((s:ℝ) / ((s:ℝ) - (((s * res1) >>> p1 - s : ℕ) : ℝ))) ^
                (((MAX_CRR : ℕ) : ℝ) / (c:ℝ)) ≠ 0 := ne_of_gt hσm_pos
            calc (r:ℝ) * (((s:ℝ) / ((s:ℝ) - (((s * res1) >>> p1 - s : ℕ) : ℝ))) ^
                (((MAX_CRR : ℕ) : ℝ) / (c:ℝ)))⁻¹ *
                (2 ^ p2 * ((s:ℝ) / ((s:ℝ) - (((s * res1) >>> p1 - s : ℕ) : ℝ))) ^
                  (((MAX_CRR : ℕ) : ℝ) / (c:ℝ))) =
                (r:ℝ) * 2 ^ p2 * ((((s:ℝ) / ((s:ℝ) -
                  (((s * res1) >>> p1 - s : ℕ) : ℝ))) ^
                  (((MAX_CRR : ℕ) : ℝ) / (c:ℝ)))⁻¹ *
                  ((s:ℝ) / ((s:ℝ) - (((s * res1) >>> p1 - s : ℕ) : ℝ))) ^
                  (((MAX_CRR : ℕ) : ℝ) / (c:ℝ))) := by ring
            _ = (r:ℝ) * 2 ^ p2 := by rw [inv_mul_cancel₀ hXne, mul_one]
          linarith [h5, h6]
        have hmulR : (r:ℝ) * (2 - ((d:ℝ) + r) / r) ≤
            (r:ℝ) * ((((s:ℝ) - (((s * res1) >>> p1 - s : ℕ) : ℝ)) / s) ^
              (((MAX_CRR : ℕ) : ℝ) / (c:ℝ))) :=
          mul_le_mul_of_nonneg_left hτm (le_of_lt hrposR)
        have hrρ : (r:ℝ) * (((d:ℝ) + r) / r) = (d:ℝ) + r := by
          field_simp
        have hfinR : (((r * res2 - r * 2 ^ p2) / res2 : ℕ) : ℝ) ≤ (d:ℝ) := by
          linarith [hbub, hmulR, hrρ]
        have hfinN : (r * res2 - r * 2 ^ p2) / res2 ≤ d := by exact_mod_cast hfinR
        rw [hbv, sale_general_value hres2]
        exact_mod_cast hfinN

set_option maxRecDepth 400000 in
/-- Witness for C1 at a concrete pool state: buy with 11, sell the
returned 16 tokens back, receive 6 ≤ 11. -/
theorem C1_roundTrip_witness : (6 : ℤ) ≤ (11 : ℤ) :=
  C1_roundTrip 97 13 250000 11 16 6 (by decide) (by decide)

end Bancor
